import Mathlib

/-!
# Wire framing of FactomCode: `wire/message.go` and `wire/msgmissing.go`

A shallow embedding of the message framer (header codec, command dispatch,
`WriteMessageN`, `ReadMessageN`, `discardInput`) and of the `MsgMissing`
variant, followed by theorems about them.

Conventions of the embedding:

* a Go `byte` is a `Nat` below 256, a `uint32` a `Nat` below `2 ^ 32`; a Go
  `string` or `[]byte` is a list of bytes (`Bytes`);
* an `io.Reader` is an in-memory stream: the list of bytes not yet consumed;
  every function that reads returns the stream that is left;
* an `io.Writer` is a sink that records the bytes it accepted and may run out
  of room (`Writer`);
* a Go function that can hit a run-time panic returns an `Outcome`;
* the collaborators that live outside the two source files (hash functions,
  the signature scheme, the other message variants, the END_MINUTE constants)
  are the fields of `Ext`.
-/

namespace Wire

/-- Byte strings: Go `string` and `[]byte` values. -/
abbrev Bytes := List Nat

/-- The bytes of an ASCII string literal of the source. -/
def str (s : String) : Bytes := s.toList.map Char.toNat

/-! ## Constants of `wire/message.go` -/

def MessageHeaderSize : Nat := 24

def CommandSize : Nat := 12

def MaxMessagePayload : Nat := 1024 * 1024 * 32

def CmdVersion : Bytes := str "version"
def CmdVerAck : Bytes := str "verack"
def CmdGetAddr : Bytes := str "getaddr"
def CmdAddr : Bytes := str "addr"
def CmdInv : Bytes := str "inv"
def CmdNotFound : Bytes := str "notfound"
def CmdFBlock : Bytes := str "FBlock"
def CmdFactoidTX : Bytes := str "factoidtx"
def CmdPing : Bytes := str "ping"
def CmdPong : Bytes := str "pong"
def CmdAlert : Bytes := str "alert"
def CmdReject : Bytes := str "reject"
def CmdGetDirBlocks : Bytes := str "getdirblocks"
def CmdDirInv : Bytes := str "dirInv"
def CmdGetDirData : Bytes := str "getdirdata"
def CmdDirBlock : Bytes := str "dirblock"
def CmdGetNonDirData : Bytes := str "getnodirdata"
def CmdABlock : Bytes := str "adminblock"
def CmdECBlock : Bytes := str "ecblock"
def CmdEBlock : Bytes := str "entryblock"
def CmdGetEntryData : Bytes := str "getentrydata"
def CmdEntry : Bytes := str "entry"
def CmdCommitChain : Bytes := str "commitchain"
def CmdRevealChain : Bytes := str "revealchain"
def CmdCommitEntry : Bytes := str "commitentry"
def CmdRevealEntry : Bytes := str "revealentry"
def CmdAck : Bytes := str "confirmation"
def CmdMHashReveal : Bytes := str "mhashreveal"
def CmdEOM : Bytes := str "eom"
def CmdDirBlockSig : Bytes := str "dirblocksig"
def CmdNextLeader : Bytes := str "nextleader"
def CmdNextLeaderResp : Bytes := str "nextleadresp"
def CmdMissing : Bytes := str "missingmsg"
def CmdCandidate : Bytes := str "candidate"
def CmdCurrentLeader : Bytes := str "currleader"
def CmdCurrentLeaderResp : Bytes := str "currleadresp"
def CmdGetFactomData : Bytes := str "getfctdata"

def MaxAppMsgPayload : Nat := 20 * 1024

def MaxBlockMsgPayload : Nat := 1024 * 1024 * 32

/-! ## Errors, outcomes, events -/

/-- The function named in a `MessageError`. -/
inductive Func
  | WriteMessage
  | ReadMessage
  deriving DecidableEq, Repr

/-- The formatted descriptions of the errors built in `message.go`, one
constructor per format string, carrying the formatted values. -/
inductive Desc
  /-- "command [%s] is too long [max %v]" -/
  | commandTooLong (cmd : Bytes) (max : Nat)
  /-- "message payload is too large - encoded %d bytes, but maximum message
  payload is %d bytes" -/
  | encodedTooLarge (lenp max : Nat)
  /-- "message payload is too large - encoded %d bytes, but maximum message
  payload size for messages of type [%s] is %d." -/
  | encodedTooLargeForType (lenp : Nat) (cmd : Bytes) (mpl : Nat)
  /-- "message payload is too large - header indicates %d bytes, but max
  message payload is %d bytes." -/
  | headerTooLarge (length max : Nat)
  /-- "message from other network [%v]" -/
  | otherNetwork (magic : Nat)
  /-- "invalid command %v" -/
  | invalidCommand (cmd : Bytes)
  /-- "unhandled command [%s]" -/
  | unhandledCommand (cmd : Bytes)
  /-- "payload exceeds max length - header indicates %v bytes, but max payload
  size for messages of type [%v] is %v." -/
  | exceedsTypeMax (length : Nat) (cmd : Bytes) (mpl : Nat)
  /-- "payload checksum failed - header indicates %v, but actual checksum is
  %v." -/
  | checksumFailed (header actual : Bytes)
  deriving DecidableEq, Repr

/-- Go `error` values that occur in the two files. -/
inductive Error
  /-- The value io.EOF. -/
  | EOF
  /-- The value io.ErrUnexpectedEOF. -/
  | ErrUnexpectedEOF
  /-- The value io.ErrShortWrite. -/
  | ErrShortWrite
  /-- A value built by fmt.Errorf. -/
  | errorf (d : Desc)
  /-- A value built by messageError(f, str). -/
  | messageError (f : Func) (d : Desc)
  /-- An error of a collaborator outside the two files. -/
  | external (code : Nat)
  deriving DecidableEq, Repr

/-- The descriptions that report a payload size violation. -/
def Desc.isSize : Desc → Bool
  | .encodedTooLarge _ _ => true
  | .encodedTooLargeForType _ _ _ => true
  | .headerTooLarge _ _ => true
  | .exceedsTypeMax _ _ _ => true
  | _ => false

/-- A `MessageError` that reports a payload size violation. -/
def Error.isSize : Error → Bool
  | .messageError _ d => d.isSize
  | _ => false

/-- A call either returns a value or ends in a run-time panic. -/
inductive Outcome (α : Type)
  | returns (a : α)
  | panics
  deriving DecidableEq, Repr

/-- What `ReadMessageN` does to its reader and to the resolved variant, in
order: `read k` is an `io.ReadFull` into a buffer of `k` bytes made by
`readMessageHeader` or `ReadMessageN` itself, `discard k` is an `io.ReadFull`
into a buffer of `k` bytes inside `discardInput`, `decode` is a call of the
variant's `BtcDecode`. -/
inductive Event
  | read (k : Nat)
  | discard (k : Nat)
  | decode
  deriving DecidableEq, Repr

/-! ## Library functions used by the two files -/

/-- The function io.ReadFull(r, buf) with len(buf) = k on an in-memory stream:
the bytes read, the error and the stream left. -/
def ReadFull (r : Bytes) (k : Nat) : Bytes × Option Error × Bytes :=
  if k ≤ r.length then (r.take k, none, r.drop k)
  else if r.length = 0 then ([], some Error.EOF, r)
  else (r, some Error.ErrUnexpectedEOF, [])

/-- The function binary.BigEndian.Uint32. -/
def bigEndianUint32 (b : Bytes) : Nat :=
  b.getD 0 0 * 2 ^ 24 + b.getD 1 0 * 2 ^ 16 + b.getD 2 0 * 2 ^ 8 + b.getD 3 0

/-- The bytes binary.Write(w, binary.BigEndian, v) writes for a uint32. -/
def bigEndianPutUint32 (v : Nat) : Bytes :=
  [v / 2 ^ 24 % 256, v / 2 ^ 16 % 256, v / 2 ^ 8 % 256, v % 256]

/-- The function bytes.TrimRight(b, string(0)): drop the trailing zero bytes. -/
def TrimRightZero (b : Bytes) : Bytes :=
  (b.reverse.dropWhile (fun x => x == 0)).reverse

/-- A continuation byte of UTF-8. -/
def utf8Cont (b : Nat) : Bool := 0x80 ≤ b && b ≤ 0xBF

/-- The function utf8.ValidString of the Go library: the bytes are a sequence
of well-formed UTF-8 encodings (no overlong form, no surrogate, nothing above
U+10FFFF). -/
def ValidString : Bytes → Bool
  | [] => true
  | b0 :: rest =>
    if b0 < 0x80 then ValidString rest
    else if 0xC2 ≤ b0 && b0 ≤ 0xDF then
      match rest with
      | b1 :: rest1 => utf8Cont b1 && ValidString rest1
      | _ => false
    else if 0xE0 ≤ b0 && b0 ≤ 0xEF then
      match rest with
      | b1 :: b2 :: rest2 =>
        (if b0 = 0xE0 then 0xA0 ≤ b1 && b1 ≤ 0xBF
         else if b0 = 0xED then 0x80 ≤ b1 && b1 ≤ 0x9F
         else utf8Cont b1)
        && utf8Cont b2 && ValidString rest2
      | _ => false
    else if 0xF0 ≤ b0 && b0 ≤ 0xF4 then
      match rest with
      | b1 :: b2 :: b3 :: rest3 =>
        (if b0 = 0xF0 then 0x90 ≤ b1 && b1 ≤ 0xBF
         else if b0 = 0xF4 then 0x80 ≤ b1 && b1 ≤ 0x8F
         else utf8Cont b1)
        && utf8Cont b2 && utf8Cont b3 && ValidString rest3
      | _ => false
    else false

/-- An io.Writer: an in-memory sink. `out` holds the bytes accepted so far;
`room` is `none` for a sink that never fails (a bytes.Buffer) and `some k` for
one that accepts `k` more bytes and then fails with a short write. -/
structure Writer where
  out : Bytes
  room : Option Nat
  deriving DecidableEq, Repr

/-- The method w.Write(p): bytes written, error, and the writer afterwards. -/
def Writer.Write (w : Writer) (p : Bytes) : Nat × Option Error × Writer :=
  match w.room with
  | none => (p.length, none, { w with out := w.out ++ p })
  | some k =>
    if p.length ≤ k then
      (p.length, none, { out := w.out ++ p, room := some (k - p.length) })
    else
      (k, some Error.ErrShortWrite, { out := w.out ++ p.take k, room := some 0 })

/-! ## Collaborators outside the two files -/

/-- The concrete message types `makeEmptyMessage` builds, `MsgMissing` apart. -/
inductive MsgType
  | MsgVersion | MsgVerAck | MsgFBlock | MsgGetAddr | MsgAddr | MsgInv
  | MsgNotFound | MsgPing | MsgPong | MsgAlert | MsgReject | MsgRevealEntry
  | MsgCommitEntry | MsgRevealChain | MsgCommitChain | MsgAck
  | MsgGetDirBlocks | MsgDirInv | MsgGetDirData | MsgDirBlock
  | MsgGetNonDirData | MsgABlock | MsgECBlock | MsgEBlock | MsgGetEntryData
  | MsgEntry | MsgFactoidTX | MsgEOM | MsgDirBlockSig | MsgNextLeader
  | MsgNextLeaderResp | MsgCandidate | MsgCurrentLeader
  | MsgCurrentLeaderResp | MsgGetFactomData
  deriving DecidableEq, Repr

/-- Everything the two files use without defining it: the signature scheme of
package common, the hash functions and the END_MINUTE constants of package
wire, and the fields and methods of the other message types. -/
structure Ext where
  /-- The type common.Signature. -/
  Signature : Type
  /-- The type common.PrivateKey. -/
  PrivateKey : Type
  /-- The zero value of common.Signature. -/
  zeroSignature : Signature
  MarshalBinarySignature : Signature → Bytes
  UnmarshalBinarySignature : Bytes → Signature
  /-- The method Signature.Equals. -/
  SignatureEquals : Signature → Signature → Bool
  /-- The method PrivateKey.Sign. -/
  Sign : PrivateKey → Bytes → Signature
  DoubleSha256 : Bytes → Bytes
  Sha256 : Bytes → Bytes
  END_MINUTE_1 : Nat
  END_MINUTE_10 : Nat
  /-- The field values of a message of another type. -/
  Body : Type
  /-- The zero value `&MsgT{}` of another type. -/
  emptyBody : MsgType → Body
  otherBtcDecode : MsgType → Body → Bytes → Nat → Outcome (Body × Option Error)
  otherBtcEncode : MsgType → Body → Nat → Bytes × Option Error
  otherCommand : MsgType → Body → Bytes
  otherMaxPayloadLength : MsgType → Body → Nat → Nat

/-! ## `wire/msgmissing.go` -/

/-- The struct MsgMissing. The field `Type` of the source is `Typ` here. -/
structure MsgMissing (X : Ext) where
  Height : Nat
  Index : Nat
  Typ : Nat
  ReqNodeID : Bytes
  Sig : X.Signature

/-- The fields hold values of their Go types. -/
def MsgMissing.WellTyped {X : Ext} (msg : MsgMissing X) : Prop :=
  msg.Height < 2 ^ 32 ∧ msg.Index < 2 ^ 32 ∧ msg.Typ < 256 ∧ ∀ b ∈ msg.ReqNodeID, b < 256

/-- The method GetBinaryForSignature: the bytes and the (always nil) error. -/
def MsgMissing.GetBinaryForSignature {X : Ext} (msg : MsgMissing X) : Bytes × Option Error :=
  let buf : Bytes := []
  let buf := buf ++ bigEndianPutUint32 msg.Height
  let buf := buf ++ bigEndianPutUint32 msg.Index
  let buf := buf ++ [msg.Typ]
  let buf := buf ++ msg.ReqNodeID
  (buf, none)

/-- The method Sign: the receiver afterwards and the returned error. -/
def MsgMissing.Sign {X : Ext} (msg : MsgMissing X) (priv : X.PrivateKey) :
    MsgMissing X × Option Error :=
  match msg.GetBinaryForSignature with
  | (_, some err) => (msg, some err)
  | (bytes, none) => ({ msg with Sig := X.Sign priv bytes }, none)

/-- The method BtcDecode on a reader that holds the bytes `r` (ioutil.ReadAll
returns them all, with a nil error): the receiver afterwards and the returned
error, or a panic where a slice or index expression is out of range. -/
def MsgMissing.BtcDecode {X : Ext} (msg : MsgMissing X) (r : Bytes) (pver : Nat) :
    Outcome (MsgMissing X × Option Error) :=
  let _ := pver
  let newData := r
  -- msg.Height, newData = binary.BigEndian.Uint32(newData[0:4]), newData[4:]
  if newData.length < 4 then Outcome.panics else
  let msg := { msg with Height := bigEndianUint32 (newData.take 4) }
  let newData := newData.drop 4
  -- msg.Index, newData = binary.BigEndian.Uint32(newData[0:4]), newData[4:]
  if newData.length < 4 then Outcome.panics else
  let msg := { msg with Index := bigEndianUint32 (newData.take 4) }
  let newData := newData.drop 4
  -- msg.Type, newData = newData[0], newData[1:]
  match newData with
  | [] => Outcome.panics
  | t :: newData =>
    let msg := { msg with Typ := t }
    let len : Int := (newData.length : Int) - 96
    -- newData[:len] and newData[len:]
    if len < 0 then Outcome.panics else
    let msg := { msg with ReqNodeID := newData.take len.toNat }
    let msg := { msg with Sig := X.UnmarshalBinarySignature (newData.drop len.toNat) }
    Outcome.returns (msg, none)

/-- The method BtcEncode: the bytes written to `w` and the (always nil) error. -/
def MsgMissing.BtcEncode {X : Ext} (msg : MsgMissing X) (pver : Nat) : Bytes × Option Error :=
  let _ := pver
  let buf : Bytes := []
  let buf := buf ++ bigEndianPutUint32 msg.Height
  let buf := buf ++ bigEndianPutUint32 msg.Index
  let buf := buf ++ [msg.Typ]
  let buf := buf ++ msg.ReqNodeID
  let data := X.MarshalBinarySignature msg.Sig
  let buf := buf ++ data
  (buf, none)

def MsgMissing.Command {X : Ext} (_msg : MsgMissing X) : Bytes := CmdMissing

def MsgMissing.MaxPayloadLength {X : Ext} (_msg : MsgMissing X) (_pver : Nat) : Nat := 255

def NewMsgMissing (X : Ext) (height index typ : Nat) (sourceID : Bytes) : MsgMissing X :=
  { Height := height, Index := index, Typ := typ, ReqNodeID := sourceID,
    Sig := X.zeroSignature }

/-- The constant ProtocolVersion of package wire, used by Sha; BtcEncode of
MsgMissing ignores it. -/
def ProtocolVersion : Nat := 0

/-- The method ShaHash.SetBytes on a zero hash: the 32 bytes given, or the
zero hash (and an error, which Sha drops) for another length. -/
def ShaHashSetBytes (newHash : Bytes) : Bytes :=
  if newHash.length = 32 then newHash else List.replicate 32 0

/-- The method Sha: the hash and the (always nil) error. -/
def MsgMissing.Sha {X : Ext} (msg : MsgMissing X) : Bytes × Option Error :=
  let buf := (msg.BtcEncode ProtocolVersion).1
  let sha := ShaHashSetBytes (X.Sha256 buf)
  (sha, none)

def MsgMissing.IsEomAck {X : Ext} (msg : MsgMissing X) : Bool :=
  if X.END_MINUTE_1 ≤ msg.Typ ∧ msg.Typ ≤ X.END_MINUTE_10 then true else false

def MsgMissing.Equals {X : Ext} (msg ack : MsgMissing X) : Bool :=
  msg.Height == ack.Height &&
    msg.Index == ack.Index &&
    msg.Typ == ack.Typ &&
    msg.ReqNodeID == ack.ReqNodeID &&
    X.SignatureEquals msg.Sig ack.Sig

/-! ## `wire/message.go` -/

/-- A value of the interface Message: a MsgMissing, or a message of another
type with its fields. -/
inductive Message (X : Ext)
  | missing (m : MsgMissing X)
  | other (t : MsgType) (b : X.Body)

def Message.BtcDecode {X : Ext} (msg : Message X) (r : Bytes) (pver : Nat) :
    Outcome (Message X × Option Error) :=
  match msg with
  | .missing m =>
    match m.BtcDecode r pver with
    | .returns (m1, err) => .returns (.missing m1, err)
    | .panics => .panics
  | .other t b =>
    match X.otherBtcDecode t b r pver with
    | .returns (b1, err) => .returns (.other t b1, err)
    | .panics => .panics

def Message.BtcEncode {X : Ext} (msg : Message X) (pver : Nat) : Bytes × Option Error :=
  match msg with
  | .missing m => m.BtcEncode pver
  | .other t b => X.otherBtcEncode t b pver

def Message.Command {X : Ext} (msg : Message X) : Bytes :=
  match msg with
  | .missing m => m.Command
  | .other t b => X.otherCommand t b

def Message.MaxPayloadLength {X : Ext} (msg : Message X) (pver : Nat) : Nat :=
  match msg with
  | .missing m => m.MaxPayloadLength pver
  | .other t b => X.otherMaxPayloadLength t b pver

/-- The zero value `&MsgT{}` of another type, as a Message. -/
def emptyOther (X : Ext) (t : MsgType) : Message X := Message.other t (X.emptyBody t)

/-- The zero value `&MsgMissing{}`. -/
def emptyMissing (X : Ext) : Message X :=
  Message.missing
    { Height := 0, Index := 0, Typ := 0, ReqNodeID := [], Sig := X.zeroSignature }

/-- The function makeEmptyMessage, its cases in the order of the source. -/
def makeEmptyMessage (X : Ext) (command : Bytes) : Except Error (Message X) :=
  if command = CmdVersion then .ok (emptyOther X .MsgVersion)
  else if command = CmdVerAck then .ok (emptyOther X .MsgVerAck)
  else if command = CmdFBlock then .ok (emptyOther X .MsgFBlock)
  else if command = CmdGetAddr then .ok (emptyOther X .MsgGetAddr)
  else if command = CmdAddr then .ok (emptyOther X .MsgAddr)
  else if command = CmdInv then .ok (emptyOther X .MsgInv)
  else if command = CmdNotFound then .ok (emptyOther X .MsgNotFound)
  else if command = CmdPing then .ok (emptyOther X .MsgPing)
  else if command = CmdPong then .ok (emptyOther X .MsgPong)
  else if command = CmdAlert then .ok (emptyOther X .MsgAlert)
  else if command = CmdReject then .ok (emptyOther X .MsgReject)
  else if command = CmdRevealEntry then .ok (emptyOther X .MsgRevealEntry)
  else if command = CmdCommitEntry then .ok (emptyOther X .MsgCommitEntry)
  else if command = CmdRevealChain then .ok (emptyOther X .MsgRevealChain)
  else if command = CmdCommitChain then .ok (emptyOther X .MsgCommitChain)
  else if command = CmdAck then .ok (emptyOther X .MsgAck)
  else if command = CmdGetDirBlocks then .ok (emptyOther X .MsgGetDirBlocks)
  else if command = CmdDirInv then .ok (emptyOther X .MsgDirInv)
  else if command = CmdGetDirData then .ok (emptyOther X .MsgGetDirData)
  else if command = CmdDirBlock then .ok (emptyOther X .MsgDirBlock)
  else if command = CmdGetNonDirData then .ok (emptyOther X .MsgGetNonDirData)
  else if command = CmdABlock then .ok (emptyOther X .MsgABlock)
  else if command = CmdECBlock then .ok (emptyOther X .MsgECBlock)
  else if command = CmdEBlock then .ok (emptyOther X .MsgEBlock)
  else if command = CmdGetEntryData then .ok (emptyOther X .MsgGetEntryData)
  else if command = CmdEntry then .ok (emptyOther X .MsgEntry)
  else if command = CmdFactoidTX then .ok (emptyOther X .MsgFactoidTX)
  else if command = CmdEOM then .ok (emptyOther X .MsgEOM)
  else if command = CmdDirBlockSig then .ok (emptyOther X .MsgDirBlockSig)
  else if command = CmdNextLeader then .ok (emptyOther X .MsgNextLeader)
  else if command = CmdNextLeaderResp then .ok (emptyOther X .MsgNextLeaderResp)
  else if command = CmdMissing then .ok (emptyMissing X)
  else if command = CmdCandidate then .ok (emptyOther X .MsgCandidate)
  else if command = CmdCurrentLeader then .ok (emptyOther X .MsgCurrentLeader)
  else if command = CmdCurrentLeaderResp then .ok (emptyOther X .MsgCurrentLeaderResp)
  else if command = CmdGetFactomData then .ok (emptyOther X .MsgGetFactomData)
  else .error (Error.errorf (Desc.unhandledCommand command))

/-- The struct messageHeader. -/
structure messageHeader where
  magic : Nat
  command : Bytes
  length : Nat
  checksum : Bytes
  deriving DecidableEq, Repr

/-- Modelled from the spec: readElements of wire/common.go is not among the
sources. The call readElements(hr, &hdr.magic, &command, &hdr.length,
&hdr.checksum) on the 24 header bytes follows the wire header layout of the
spec: network id (4 bytes), command (12 bytes), length (4 bytes, big-endian),
checksum (4 bytes), with big-endian primitive encoding. -/
def readElements (headerBytes : Bytes) : Nat × Bytes × Nat × Bytes :=
  (bigEndianUint32 (headerBytes.take 4),
   (headerBytes.drop 4).take CommandSize,
   bigEndianUint32 ((headerBytes.drop 16).take 4),
   (headerBytes.drop 20).take 4)

/-- Modelled from the spec: writeElements of wire/common.go is not among the
sources. The call writeElements(hw, hdr.magic, command, hdr.length,
hdr.checksum) writes the wire header layout of the spec: network id (4
bytes), command (12 bytes), length (4 bytes, big-endian), checksum (4 bytes),
with big-endian primitive encoding. -/
def writeElements (magic : Nat) (command : Bytes) (length : Nat) (checksum : Bytes) : Bytes :=
  bigEndianPutUint32 magic ++ command ++ bigEndianPutUint32 length ++ checksum

/-- The function readMessageHeader: bytes read, header or error, stream left. -/
def readMessageHeader (r : Bytes) : Nat × Except Error messageHeader × Bytes :=
  match ReadFull r MessageHeaderSize with
  | (headerBytes, some err, r1) => (headerBytes.length, .error err, r1)
  | (headerBytes, none, r1) =>
    let (magic, command, length, checksum) := readElements headerBytes
    let hdr : messageHeader :=
      { magic := magic, command := TrimRightZero command, length := length,
        checksum := checksum }
    (headerBytes.length, .ok hdr, r1)

/-- The loop `for i := uint32(0); i < numReads; i++ { io.ReadFull(r, buf) }`
of discardInput with a buffer of `maxSize` bytes: the stream left. -/
def discardLoop (maxSize : Nat) : Nat → Bytes → Bytes
  | 0, r => r
  | numReads + 1, r => discardLoop maxSize numReads (ReadFull r maxSize).2.2

/-- The function discardInput: the stream left, and the sizes of the buffers
handed to io.ReadFull, in order. -/
def discardInput (r : Bytes) (n : Nat) : Bytes × List Nat :=
  let maxSize := 10 * 1024
  let numReads := n / maxSize
  let bytesRemaining := n % maxSize
  let (r, reads) :=
    if n > 0 then (discardLoop maxSize numReads r, List.replicate numReads maxSize)
    else (r, [])
  if bytesRemaining > 0 then
    ((ReadFull r bytesRemaining).2.2, reads ++ [bytesRemaining])
  else (r, reads)

/-- The copy of a slice into a `[n]byte` array that starts as zeros. -/
def copyInto (n : Nat) (src : Bytes) : Bytes :=
  src.take n ++ List.replicate (n - src.length) 0

/-- The function WriteMessageN: bytes written, error, writer afterwards. -/
def WriteMessageN {X : Ext} (w : Writer) (msg : Message X) (pver btcnet : Nat) :
    Nat × Option Error × Writer :=
  let totalBytes := 0
  -- Enforce max command size.
  let cmd := msg.Command
  if cmd.length > CommandSize then
    (totalBytes, some (Error.messageError .WriteMessage (.commandTooLong cmd CommandSize)), w)
  else
  let command := copyInto CommandSize cmd
  -- Encode the message payload.
  match msg.BtcEncode pver with
  | (_, some err) => (totalBytes, some err, w)
  | (payload, none) =>
  let lenp := payload.length
  -- Enforce maximum overall message payload.
  if lenp > MaxMessagePayload then
    (totalBytes,
      some (Error.messageError .WriteMessage (.encodedTooLarge lenp MaxMessagePayload)), w)
  else
  -- Enforce maximum message payload based on the message type.
  let mpl := msg.MaxPayloadLength pver
  if lenp % 2 ^ 32 > mpl then
    (totalBytes,
      some (Error.messageError .WriteMessage (.encodedTooLargeForType lenp cmd mpl)), w)
  else
  -- Create header for the message.
  let hdr : messageHeader :=
    { magic := btcnet, command := cmd, length := lenp % 2 ^ 32,
      checksum := copyInto 4 ((X.DoubleSha256 payload).take 4) }
  let hw := writeElements hdr.magic command hdr.length hdr.checksum
  -- Write header.
  match w.Write hw with
  | (n, some err, w1) => (totalBytes + n, some err, w1)
  | (n, none, w1) =>
  let totalBytes := totalBytes + n
  -- Write payload.
  match w1.Write payload with
  | (n, some err, w2) => (totalBytes + n, some err, w2)
  | (n, none, w2) => (totalBytes + n, none, w2)

/-- The function WriteMessage. -/
def WriteMessage {X : Ext} (w : Writer) (msg : Message X) (pver btcnet : Nat) :
    Option Error × Writer :=
  ((WriteMessageN w msg pver btcnet).2.1, (WriteMessageN w msg pver btcnet).2.2)

/-- The values ReadMessageN returns. -/
structure ReadResult (X : Ext) where
  n : Nat
  msg : Option (Message X)
  buf : Option Bytes
  err : Option Error

/-- A run of ReadMessageN: what it returns (or a panic), the stream left and
the reads and decode calls it made. -/
structure ReadRun (X : Ext) where
  result : Outcome (ReadResult X)
  rest : Bytes
  trace : List Event

/-- The function ReadMessageN. -/
def ReadMessageN (X : Ext) (r : Bytes) (pver btcnet : Nat) : ReadRun X :=
  let totalBytes := 0
  match readMessageHeader r with
  | (n, .error err, r) =>
    ⟨.returns ⟨totalBytes + n, none, none, some err⟩, r, [.read MessageHeaderSize]⟩
  | (n, .ok hdr, r) =>
  let totalBytes := totalBytes + n
  let trace := [Event.read MessageHeaderSize]
  -- Enforce maximum message payload.
  if hdr.length > MaxMessagePayload then
    ⟨.returns ⟨totalBytes, none, none,
        some (Error.messageError .ReadMessage (.headerTooLarge hdr.length MaxMessagePayload))⟩,
      r, trace⟩
  else
  -- Check for messages from the wrong network.
  if hdr.magic ≠ btcnet then
    let d := discardInput r hdr.length
    ⟨.returns ⟨totalBytes, none, none,
        some (Error.messageError .ReadMessage (.otherNetwork hdr.magic))⟩,
      d.1, trace ++ d.2.map Event.discard⟩
  else
  -- Check for malformed commands.
  let command := hdr.command
  if !ValidString command then
    let d := discardInput r hdr.length
    ⟨.returns ⟨totalBytes, none, none,
        some (Error.messageError .ReadMessage (.invalidCommand command))⟩,
      d.1, trace ++ d.2.map Event.discard⟩
  else
  -- Create struct of appropriate message type based on the command.
  match makeEmptyMessage X command with
  | .error _ =>
    let d := discardInput r hdr.length
    ⟨.returns ⟨totalBytes, none, none,
        some (Error.messageError .ReadMessage (.unhandledCommand command))⟩,
      d.1, trace ++ d.2.map Event.discard⟩
  | .ok msg =>
  -- Check for maximum length based on the message type.
  let mpl := msg.MaxPayloadLength pver
  if hdr.length > mpl then
    let d := discardInput r hdr.length
    ⟨.returns ⟨totalBytes, none, none,
        some (Error.messageError .ReadMessage (.exceedsTypeMax hdr.length command mpl))⟩,
      d.1, trace ++ d.2.map Event.discard⟩
  else
  -- Read payload.
  let trace := trace ++ [Event.read hdr.length]
  match ReadFull r hdr.length with
  | (payload, some err, r) =>
    ⟨.returns ⟨totalBytes + payload.length, none, none, some err⟩, r, trace⟩
  | (payload, none, r) =>
  let totalBytes := totalBytes + payload.length
  -- Test checksum.
  let checksum := (X.DoubleSha256 payload).take 4
  if checksum ≠ hdr.checksum then
    ⟨.returns ⟨totalBytes, none, none,
        some (Error.messageError .ReadMessage (.checksumFailed hdr.checksum checksum))⟩,
      r, trace⟩
  else
  -- Unmarshal message.
  let trace := trace ++ [Event.decode]
  match msg.BtcDecode payload pver with
  | .panics => ⟨.panics, r, trace⟩
  | .returns (_, some err) => ⟨.returns ⟨totalBytes, none, none, some err⟩, r, trace⟩
  | .returns (msg, none) => ⟨.returns ⟨totalBytes, some msg, some payload, none⟩, r, trace⟩

/-- The function ReadMessage. -/
def ReadMessage (X : Ext) (r : Bytes) (pver btcnet : Nat) :
    Outcome (Option (Message X) × Option Bytes × Option Error) :=
  match (ReadMessageN X r pver btcnet).result with
  | .returns res => .returns (res.msg, res.buf, res.err)
  | .panics => .panics

/-! ## An instance of the collaborators, for evaluation -/

/-- A stand-in for the collaborators on which the definitions can be run: a
signature is its 96 marshalled bytes, a digest is 32 copies of the byte sum of
the input, and every other message type has no fields, an empty encoding and a
20 KiB limit. -/
def demoExt : Ext where
  Signature := Bytes
  PrivateKey := Nat
  zeroSignature := List.replicate 96 0
  MarshalBinarySignature := fun s => copyInto 96 s
  UnmarshalBinarySignature := fun b => copyInto 96 b
  SignatureEquals := fun a b => a == b
  Sign := fun k b => copyInto 96 (k % 256 :: b)
  DoubleSha256 := fun b => List.replicate 32 (b.sum % 256)
  Sha256 := fun b => List.replicate 32 (b.sum % 256)
  END_MINUTE_1 := 1
  END_MINUTE_10 := 10
  Body := Unit
  emptyBody := fun _ => ()
  otherBtcDecode := fun _ _ _ _ => Outcome.returns ((), none)
  otherBtcEncode := fun _ _ _ => ([], none)
  otherCommand := fun _ _ => []
  otherMaxPayloadLength := fun _ _ _ => MaxAppMsgPayload

/-! ## SHA-256 and the hash functions of package wire -/

/-- Rotation of a 32-bit word to the right. -/
def rotr32 (x n : Nat) : Nat := (x >>> n) ||| ((x <<< (32 - n)) % 2 ^ 32)

/-- The round constants of SHA-256. -/
def sha256K : List Nat :=
  [0x428a2f98, 0x71374491, 0xb5c0fbcf, 0xe9b5dba5, 0x3956c25b, 0x59f111f1, 0x923f82a4, 0xab1c5ed5,
   0xd807aa98, 0x12835b01, 0x243185be, 0x550c7dc3, 0x72be5d74, 0x80deb1fe, 0x9bdc06a7, 0xc19bf174,
   0xe49b69c1, 0xefbe4786, 0x0fc19dc6, 0x240ca1cc, 0x2de92c6f, 0x4a7484aa, 0x5cb0a9dc, 0x76f988da,
   0x983e5152, 0xa831c66d, 0xb00327c8, 0xbf597fc7, 0xc6e00bf3, 0xd5a79147, 0x06ca6351, 0x14292967,
   0x27b70a85, 0x2e1b2138, 0x4d2c6dfc, 0x53380d13, 0x650a7354, 0x766a0abb, 0x81c2c92e, 0x92722c85,
   0xa2bfe8a1, 0xa81a664b, 0xc24b8b70, 0xc76c51a3, 0xd192e819, 0xd6990624, 0xf40e3585, 0x106aa070,
   0x19a4c116, 0x1e376c08, 0x2748774c, 0x34b0bcb5, 0x391c0cb3, 0x4ed8aa4a, 0x5b9cca4f, 0x682e6ff3,
   0x748f82ee, 0x78a5636f, 0x84c87814, 0x8cc70208, 0x90befffa, 0xa4506ceb, 0xbef9a3f7, 0xc67178f2]

/-- The initial hash value of SHA-256. -/
def sha256Init : List Nat :=
  [0x6a09e667, 0xbb67ae85, 0x3c6ef372, 0xa54ff53a, 0x510e527f, 0x9b05688c, 0x1f83d9ab, 0x5be0cd19]

/-- The padding of SHA-256: a 0x80 byte, zero bytes up to 56 modulo 64, and the
bit length as 8 big-endian bytes. -/
def sha256Pad (msg : Bytes) : Bytes :=
  let bits := 8 * msg.length
  msg ++ [0x80] ++ List.replicate ((119 - msg.length % 64) % 64) 0 ++
    [bits / 2 ^ 56 % 256, bits / 2 ^ 48 % 256, bits / 2 ^ 40 % 256, bits / 2 ^ 32 % 256,
     bits / 2 ^ 24 % 256, bits / 2 ^ 16 % 256, bits / 2 ^ 8 % 256, bits % 256]

/-- The big-endian 32-bit words of a byte string. -/
def beWords : Bytes → List Nat
  | b0 :: b1 :: b2 :: b3 :: rest => (b0 * 2 ^ 24 + b1 * 2 ^ 16 + b2 * 2 ^ 8 + b3) :: beWords rest
  | _ => []

/-- The message schedule of SHA-256: `k` more words after the words `w`. -/
def sha256Schedule : Nat → List Nat → List Nat
  | 0, w => w
  | k + 1, w =>
    let i := w.length
    let w15 := w.getD (i - 15) 0
    let w2 := w.getD (i - 2) 0
    let s0 := (rotr32 w15 7 ^^^ rotr32 w15 18) ^^^ (w15 >>> 3)
    let s1 := (rotr32 w2 17 ^^^ rotr32 w2 19) ^^^ (w2 >>> 10)
    sha256Schedule k (w ++ [(w.getD (i - 16) 0 + s0 + w.getD (i - 7) 0 + s1) % 2 ^ 32])

/-- The eight working variables of SHA-256. -/
structure ShaState where
  a : Nat
  b : Nat
  c : Nat
  d : Nat
  e : Nat
  f : Nat
  g : Nat
  h : Nat

/-- One round of the SHA-256 compression function, with the round constant and
the schedule word. -/
def sha256Round (s : ShaState) (kw : Nat × Nat) : ShaState :=
  let S1 := (rotr32 s.e 6 ^^^ rotr32 s.e 11) ^^^ rotr32 s.e 25
  let ch := (s.e &&& s.f) ^^^ ((s.e ^^^ (2 ^ 32 - 1)) &&& s.g)
  let t1 := (s.h + S1 + ch + kw.1 + kw.2) % 2 ^ 32
  let S0 := (rotr32 s.a 2 ^^^ rotr32 s.a 13) ^^^ rotr32 s.a 22
  let maj := ((s.a &&& s.b) ^^^ (s.a &&& s.c)) ^^^ (s.b &&& s.c)
  let t2 := (S0 + maj) % 2 ^ 32
  { a := (t1 + t2) % 2 ^ 32, b := s.a, c := s.b, d := s.c,
    e := (s.d + t1) % 2 ^ 32, f := s.e, g := s.f, h := s.g }

/-- The SHA-256 compression function on one 64-byte block. -/
def sha256Block (hs : List Nat) (block : Bytes) : List Nat :=
  let w := sha256Schedule 48 (beWords block)
  let s0 : ShaState :=
    { a := hs.getD 0 0, b := hs.getD 1 0, c := hs.getD 2 0, d := hs.getD 3 0,
      e := hs.getD 4 0, f := hs.getD 5 0, g := hs.getD 6 0, h := hs.getD 7 0 }
  let s := (sha256K.zip w).foldl sha256Round s0
  [(s0.a + s.a) % 2 ^ 32, (s0.b + s.b) % 2 ^ 32, (s0.c + s.c) % 2 ^ 32, (s0.d + s.d) % 2 ^ 32,
   (s0.e + s.e) % 2 ^ 32, (s0.f + s.f) % 2 ^ 32, (s0.g + s.g) % 2 ^ 32, (s0.h + s.h) % 2 ^ 32]

/-- The compression of `n` successive 64-byte blocks. -/
def sha256Blocks : Nat → List Nat → Bytes → List Nat
  | 0, hs, _ => hs
  | n + 1, hs, data => sha256Blocks n (sha256Block hs (data.take 64)) (data.drop 64)

/-- The bytes of a list of 32-bit words, big-endian. -/
def beBytes : List Nat → Bytes
  | [] => []
  | v :: rest => v / 2 ^ 24 % 256 :: v / 2 ^ 16 % 256 :: v / 2 ^ 8 % 256 :: v % 256 :: beBytes rest

/-- The function sha256.Sum256 of the Go library: SHA-256 (FIPS 180-4). -/
def sha256 (msg : Bytes) : Bytes :=
  let data := sha256Pad msg
  beBytes (sha256Blocks (data.length / 64) sha256Init data)

/-- Modelled from the spec: DoubleSha256 of package wire is not among the
sources. It is the double hash of the spec, "a hash function applied twice in
sequence", with SHA-256, the hash its name gives. -/
def DoubleSha256 (b : Bytes) : Bytes := sha256 (sha256 b)

/-- Modelled from the spec: Sha256 of package wire is not among the sources.
The spec names one hash collaborator, `doublehash(bytes) -> 32-byte digest`,
"used both for the 4-byte header checksum and for message identity hashing",
and gives the identity hash as "a digest computed over the full encoded byte
form (including signature) via the double-hash scheme": the function Sha
calls is that double hash. -/
def Sha256 (b : Bytes) : Bytes := DoubleSha256 b

/-- The collaborators of demoExt with the two hash functions of package wire. -/
def shaExt : Ext :=
  { demoExt with DoubleSha256 := DoubleSha256, Sha256 := Sha256 }

/-! ## Definitions used by the statements -/

/-- The message BtcDecode builds from the payload BtcEncode wrote for `m`. -/
def decoded {X : Ext} (m : MsgMissing X) : MsgMissing X :=
  { Height := m.Height, Index := m.Index, Typ := m.Typ, ReqNodeID := m.ReqNodeID,
    Sig := X.UnmarshalBinarySignature (X.MarshalBinarySignature m.Sig) }

/-- The header readMessageHeader builds from the first 24 bytes of a stream. -/
def headerOf (r : Bytes) : messageHeader :=
  { magic := bigEndianUint32 ((r.take 24).take 4),
    command := TrimRightZero (((r.take 24).drop 4).take CommandSize),
    length := bigEndianUint32 (((r.take 24).drop 16).take 4),
    checksum := ((r.take 24).drop 20).take 4 }

/-- The command constants declared in the const block of message.go, in the
order of their declaration. -/
def declaredCommands : List Bytes :=
  [CmdVersion, CmdVerAck, CmdGetAddr, CmdAddr, CmdInv, CmdNotFound, CmdFBlock, CmdFactoidTX,
   CmdPing, CmdPong, CmdAlert, CmdReject, CmdGetDirBlocks, CmdDirInv, CmdGetDirData,
   CmdDirBlock, CmdGetNonDirData, CmdABlock, CmdECBlock, CmdEBlock, CmdGetEntryData,
   CmdEntry, CmdCommitChain, CmdRevealChain, CmdCommitEntry, CmdRevealEntry, CmdAck,
   CmdMHashReveal, CmdEOM, CmdDirBlockSig, CmdNextLeader, CmdNextLeaderResp, CmdMissing,
   CmdCandidate, CmdCurrentLeader, CmdCurrentLeaderResp, CmdGetFactomData]

/-- The command strings that have a case in the switch of makeEmptyMessage, in
the order of the switch. -/
def registeredCommands : List Bytes :=
  [CmdVersion, CmdVerAck, CmdFBlock, CmdGetAddr, CmdAddr, CmdInv, CmdNotFound, CmdPing,
   CmdPong, CmdAlert, CmdReject, CmdRevealEntry, CmdCommitEntry, CmdRevealChain,
   CmdCommitChain, CmdAck, CmdGetDirBlocks, CmdDirInv, CmdGetDirData, CmdDirBlock,
   CmdGetNonDirData, CmdABlock, CmdECBlock, CmdEBlock, CmdGetEntryData, CmdEntry,
   CmdFactoidTX, CmdEOM, CmdDirBlockSig, CmdNextLeader, CmdNextLeaderResp, CmdMissing,
   CmdCandidate, CmdCurrentLeader, CmdCurrentLeaderResp, CmdGetFactomData]

/-- The variant registry in the words of the spec: each command tag with the
empty instance of the variant that bears its name. -/
def registry (X : Ext) : List (Bytes × Message X) :=
  [(CmdVersion, emptyOther X .MsgVersion), (CmdVerAck, emptyOther X .MsgVerAck),
   (CmdGetAddr, emptyOther X .MsgGetAddr), (CmdAddr, emptyOther X .MsgAddr),
   (CmdInv, emptyOther X .MsgInv), (CmdNotFound, emptyOther X .MsgNotFound),
   (CmdFBlock, emptyOther X .MsgFBlock), (CmdFactoidTX, emptyOther X .MsgFactoidTX),
   (CmdPing, emptyOther X .MsgPing), (CmdPong, emptyOther X .MsgPong),
   (CmdAlert, emptyOther X .MsgAlert), (CmdReject, emptyOther X .MsgReject),
   (CmdGetDirBlocks, emptyOther X .MsgGetDirBlocks), (CmdDirInv, emptyOther X .MsgDirInv),
   (CmdGetDirData, emptyOther X .MsgGetDirData), (CmdDirBlock, emptyOther X .MsgDirBlock),
   (CmdGetNonDirData, emptyOther X .MsgGetNonDirData), (CmdABlock, emptyOther X .MsgABlock),
   (CmdECBlock, emptyOther X .MsgECBlock), (CmdEBlock, emptyOther X .MsgEBlock),
   (CmdGetEntryData, emptyOther X .MsgGetEntryData), (CmdEntry, emptyOther X .MsgEntry),
   (CmdCommitChain, emptyOther X .MsgCommitChain),
   (CmdRevealChain, emptyOther X .MsgRevealChain),
   (CmdCommitEntry, emptyOther X .MsgCommitEntry),
   (CmdRevealEntry, emptyOther X .MsgRevealEntry), (CmdAck, emptyOther X .MsgAck),
   (CmdEOM, emptyOther X .MsgEOM), (CmdDirBlockSig, emptyOther X .MsgDirBlockSig),
   (CmdNextLeader, emptyOther X .MsgNextLeader),
   (CmdNextLeaderResp, emptyOther X .MsgNextLeaderResp), (CmdMissing, emptyMissing X),
   (CmdCandidate, emptyOther X .MsgCandidate),
   (CmdCurrentLeader, emptyOther X .MsgCurrentLeader),
   (CmdCurrentLeaderResp, emptyOther X .MsgCurrentLeaderResp),
   (CmdGetFactomData, emptyOther X .MsgGetFactomData)]

/-- The header of the spec for a payload: network id, command right-padded with
zero bytes to 12 bytes, payload length, first four bytes of the double hash. -/
def wireHeader (X : Ext) (btcnet : Nat) (cmd payload : Bytes) : Bytes :=
  bigEndianPutUint32 btcnet ++ (cmd ++ List.replicate (CommandSize - cmd.length) 0) ++
    bigEndianPutUint32 payload.length ++ (X.DoubleSha256 payload).take 4

/-- A signed request used to evaluate the definitions. -/
def sampleMissing : MsgMissing demoExt :=
  { Height := 7, Index := 0, Typ := 2, ReqNodeID := str "peerA", Sig := List.replicate 96 9 }

/-- A "missingmsg" frame of network 1 with an empty payload and the checksum
demoExt gives the empty payload. -/
def emptyMissingFrame : Bytes :=
  writeElements 1 (copyInto CommandSize CmdMissing) 0 [0, 0, 0, 0]

/-- A frame of network 1 that declares one payload byte, followed by that byte
and by three bytes of the next frame. -/
def foreignFrame : Bytes :=
  writeElements 1 (copyInto CommandSize CmdMissing) 1 [0, 0, 0, 0] ++ [170] ++ [1, 2, 3]

/-- A header that declares 2 * 2^24 + 1 = 33554433 payload bytes, followed by
two bytes. -/
def oversizeFrame : Bytes :=
  writeElements 1 (copyInto CommandSize CmdMissing) 33554433 [0, 0, 0, 0] ++ [1, 2]

/-- A "missingmsg" header of network 1 that declares 300 payload bytes,
followed by 300 bytes and by two bytes of the next frame. -/
def longMissingFrame : Bytes :=
  writeElements 1 (copyInto CommandSize CmdMissing) 300 [0, 0, 0, 0] ++
    List.replicate 300 7 ++ [1, 2]

/-- A signed request whose ReqNodeID has 151 bytes: its payload has 256. -/
def longMissing : MsgMissing demoExt :=
  { Height := 7, Index := 0, Typ := 2, ReqNodeID := List.replicate 151 65,
    Sig := List.replicate 96 9 }

/-- The stream with one bit flipped: bit `i` counts from the most significant
bit of the first byte. -/
def flipBit : Bytes → Nat → Bytes
  | [], _ => []
  | b :: rest, i => if i < 8 then (b ^^^ 2 ^ (7 - i)) :: rest else b :: flipBit rest (i - 8)

/-- ReadMessageN returned a message and no error. -/
def ReadRun.returnsMessage {X : Ext} (run : ReadRun X) : Bool :=
  match run.result with
  | Outcome.returns res => res.msg.isSome && res.err.isNone
  | Outcome.panics => false

/-- The error is the checksum error of ReadMessageN. -/
def Error.isChecksum : Error → Bool
  | Error.messageError Func.ReadMessage (Desc.checksumFailed _ _) => true
  | _ => false

/-- ReadMessageN returned the checksum error and no message. -/
def ReadRun.checksumError {X : Ext} (run : ReadRun X) : Bool :=
  match run.result with
  | Outcome.returns res =>
    res.msg.isNone && (match res.err with | some e => e.isChecksum | none => false)
  | Outcome.panics => false

/-- A request whose 110-byte payload has the same first four DoubleSha256
bytes as the payload with the top bit of its last byte flipped. -/
def collidingMissing : MsgMissing shaExt :=
  { Height := 7, Index := 0, Typ := 2, ReqNodeID := str "peerA",
    Sig := List.replicate 92 9 ++ [13, 48, 120, 41] }

/-- The bytes WriteMessageN writes for collidingMissing under network 1. -/
def collidingFrame : Bytes :=
  (WriteMessageN (Writer.mk [] none) (Message.missing collidingMissing) 1 1).2.2.out

/-- The payload ReadMessageN returned, if any. -/
def ReadRun.payload {X : Ext} (run : ReadRun X) : Option Bytes :=
  match run.result with
  | Outcome.returns res => res.buf
  | Outcome.panics => none

/-- A "missingmsg" frame of network 1 that carries the payload of the sample
request under a checksum that is not the one demoExt gives it. -/
def badChecksumFrame : Bytes :=
  writeElements 1 (copyInto CommandSize CmdMissing) 110 [1, 2, 3, 4] ++
    (sampleMissing.BtcEncode 1).1

/-- ReadMessageN ended in a run-time panic. -/
def ReadRun.panicked {X : Ext} (run : ReadRun X) : Bool :=
  match run.result with
  | Outcome.returns _ => false
  | Outcome.panics => true

/-- A "missingmsg" frame of network 1 with an empty payload and the first four
bytes 5d f6 e0 e2 of the double SHA-256 of the empty payload as checksum. -/
def emptyMissingShaFrame : Bytes :=
  writeElements 1 (copyInto CommandSize CmdMissing) 0 [0x5d, 0xf6, 0xe0, 0xe2]

/-! ## Lemmas on the library functions -/

theorem bigEndianUint32_put (v : Nat) (h : v < 2 ^ 32) :
    bigEndianUint32 (bigEndianPutUint32 v) = v := by
  simp only [bigEndianUint32, bigEndianPutUint32, List.getD_cons_zero, List.getD_cons_succ]
  norm_num at h ⊢
  omega

theorem bigEndianPutUint32_length (v : Nat) : (bigEndianPutUint32 v).length = 4 := rfl

theorem take_put_append (v : Nat) (l : Bytes) :
    (bigEndianPutUint32 v ++ l).take 4 = bigEndianPutUint32 v := by
  simp [bigEndianPutUint32]

theorem drop_put_append (v : Nat) (l : Bytes) :
    (bigEndianPutUint32 v ++ l).drop 4 = l := by
  simp [bigEndianPutUint32]

/-! ## The payload of MsgMissing -/

theorem MsgMissing.BtcEncode_fst {X : Ext} (m : MsgMissing X) (pver : Nat) :
    (m.BtcEncode pver).1 = bigEndianPutUint32 m.Height ++ (bigEndianPutUint32 m.Index ++
      (m.Typ :: (m.ReqNodeID ++ X.MarshalBinarySignature m.Sig))) := by
  simp [MsgMissing.BtcEncode]

theorem MsgMissing.BtcEncode_snd {X : Ext} (m : MsgMissing X) (pver : Nat) :
    (m.BtcEncode pver).2 = none := rfl

/-- BtcDecode on a payload laid out as two big-endian words, a type byte, an
identifier and 96 trailing bytes. -/
theorem MsgMissing.BtcDecode_layout {X : Ext} (msg : MsgMissing X) (pver h i t : Nat)
    (id sig : Bytes) (hsig : sig.length = 96) :
    msg.BtcDecode (bigEndianPutUint32 h ++ (bigEndianPutUint32 i ++ (t :: (id ++ sig)))) pver
      = Outcome.returns
          ({ Height := bigEndianUint32 (bigEndianPutUint32 h),
             Index := bigEndianUint32 (bigEndianPutUint32 i),
             Typ := t, ReqNodeID := id, Sig := X.UnmarshalBinarySignature sig }, none) := by
  unfold MsgMissing.BtcDecode
  simp only [take_put_append, drop_put_append, List.length_append, bigEndianPutUint32_length,
    List.length_cons, hsig]
  have h1 : ¬ (4 + (4 + (id.length + 96 + 1)) < 4) := by omega
  have h2 : ¬ (4 + (id.length + 96 + 1) < 4) := by omega
  have h3 : ¬ (((id.length + 96 : Nat) : Int) - 96 < 0) := by omega
  have h4 : (((id.length + 96 : Nat) : Int) - 96).toNat = id.length := by omega
  simp only [h1, h2, h3, h4, if_false, List.take_left', List.drop_left']

theorem MsgMissing.BtcDecode_BtcEncode {X : Ext} (m recv : MsgMissing X) (pver : Nat)
    (hH : m.Height < 2 ^ 32) (hI : m.Index < 2 ^ 32)
    (hlen : (X.MarshalBinarySignature m.Sig).length = 96) :
    recv.BtcDecode (m.BtcEncode pver).1 pver = Outcome.returns (decoded m, none) := by
  rw [MsgMissing.BtcEncode_fst, MsgMissing.BtcDecode_layout _ _ _ _ _ _ _ hlen,
    bigEndianUint32_put _ hH, bigEndianUint32_put _ hI]
  rfl

theorem MsgMissing.Equals_decoded {X : Ext} (m : MsgMissing X)
    (hsig : X.SignatureEquals m.Sig
      (X.UnmarshalBinarySignature (X.MarshalBinarySignature m.Sig)) = true) :
    m.Equals (decoded m) = true := by
  simp [MsgMissing.Equals, decoded, hsig]

/-- BtcDecode panics on every payload shorter than the 9 fixed bytes plus the
96 signature bytes: no length is checked before the slice expressions. -/
theorem MsgMissing.BtcDecode_short {X : Ext} (msg : MsgMissing X) (r : Bytes) (pver : Nat)
    (h : r.length < 105) : msg.BtcDecode r pver = Outcome.panics := by
  unfold MsgMissing.BtcDecode
  simp only
  split_ifs with h1 h2
  · rfl
  · rfl
  · split
    · rfl
    · rename_i t nd heq
      have hl : ((r.drop 4).drop 4).length = (t :: nd).length := by rw [heq]
      simp only [List.length_drop, List.length_cons] at hl
      have h3 : ((nd.length : Int) - 96 < 0) := by omega
      simp only [h3, if_true]

/-- BtcDecode returns, without error, on every payload of at least 105 bytes. -/
theorem MsgMissing.BtcDecode_long {X : Ext} (msg : MsgMissing X) (r : Bytes) (pver : Nat)
    (h : 105 ≤ r.length) : ∃ m1, msg.BtcDecode r pver = Outcome.returns (m1, none) := by
  unfold MsgMissing.BtcDecode
  simp only
  have h1 : ¬ r.length < 4 := by omega
  have h2 : ¬ (r.drop 4).length < 4 := by simp; omega
  simp only [h1, h2, if_false]
  split
  · rename_i heq
    have hl : ((r.drop 4).drop 4).length = 0 := by rw [heq]; rfl
    simp only [List.length_drop] at hl
    omega
  · rename_i t nd heq
    have hl : ((r.drop 4).drop 4).length = (t :: nd).length := by rw [heq]
    simp only [List.length_drop, List.length_cons] at hl
    have h3 : ¬ ((nd.length : Int) - 96 < 0) := by omega
    simp only [h3, if_false]
    exact ⟨_, rfl⟩

/-! ## Reading: header and discard -/

theorem ReadFull_of_le (r : Bytes) (k : Nat) (h : k ≤ r.length) :
    ReadFull r k = (r.take k, none, r.drop k) := by
  simp [ReadFull, h]

theorem ReadFull_append (a b : Bytes) : ReadFull (a ++ b) a.length = (a, none, b) := by
  simp [ReadFull]

theorem readMessageHeader_of_le (r : Bytes) (h : 24 ≤ r.length) :
    readMessageHeader r = (24, Except.ok (headerOf r), r.drop 24) := by
  have hl : (r.take 24).length = 24 := by simp [h]
  simp [readMessageHeader, MessageHeaderSize, ReadFull_of_le r 24 h, readElements, headerOf, hl]

theorem readMessageHeader_of_lt (r : Bytes) (h : r.length < 24) :
    readMessageHeader r =
      (r.length, Except.error (if r.length = 0 then Error.EOF else Error.ErrUnexpectedEOF),
        []) := by
  have h1 : ¬ 24 ≤ r.length := by omega
  by_cases h0 : r.length = 0
  · have hr : r = [] := List.length_eq_zero.mp h0
    subst hr
    simp [readMessageHeader, MessageHeaderSize, ReadFull]
  · simp [readMessageHeader, MessageHeaderSize, ReadFull, h1, h0]

theorem discardLoop_rest (maxSize : Nat) (numReads : Nat) (r : Bytes)
    (h : numReads * maxSize ≤ r.length) :
    discardLoop maxSize numReads r = r.drop (numReads * maxSize) := by
  induction numReads generalizing r with
  | zero => simp [discardLoop]
  | succ k ih =>
    have h1 : maxSize ≤ r.length := by
      have : maxSize ≤ (k + 1) * maxSize := Nat.le_mul_of_pos_left _ (Nat.succ_pos k)
      omega
    have h2 : k * maxSize ≤ (r.drop maxSize).length := by
      have : (k + 1) * maxSize = k * maxSize + maxSize := Nat.succ_mul k maxSize
      simp only [List.length_drop]
      omega
    simp only [discardLoop, ReadFull_of_le r maxSize h1]
    rw [ih _ h2, List.drop_drop, Nat.succ_mul]
    congr 1
    omega

/-- With at least `n` bytes in the stream, discardInput consumes exactly `n`. -/
theorem discardInput_rest (r : Bytes) (n : Nat) (h : n ≤ r.length) :
    (discardInput r n).1 = r.drop n := by
  have hdm : n / 10240 * 10240 + n % 10240 = n := Nat.div_add_mod' n 10240
  have hloop : n / 10240 * 10240 ≤ r.length := by omega
  have hrem2 : n % 10240 ≤ (r.drop (n / 10240 * 10240)).length := by
    simp only [List.length_drop]; omega
  unfold discardInput
  simp only [Nat.reduceMul]
  by_cases hn : n > 0
  · by_cases hrem : n % 10240 > 0
    · simp only [hn, hrem, if_true]
      rw [discardLoop_rest 10240 (n / 10240) r hloop,
        ReadFull_of_le (r.drop (n / 10240 * 10240)) (n % 10240) hrem2, List.drop_drop, hdm]
    · simp only [hn, hrem, if_true, if_false]
      have hq : n / 10240 * 10240 = n := by omega
      have hl := discardLoop_rest 10240 (n / 10240) r hloop
      rw [hq] at hl
      exact hl
  · have h0 : n = 0 := by omega
    subst h0
    simp

/-- The buffers discardInput allocates: `n / 10240` of 10240 bytes, then one of
`n % 10240` bytes when that is not zero. -/
theorem discardInput_reads (r : Bytes) (n : Nat) :
    (discardInput r n).2 =
      List.replicate (n / 10240) 10240 ++ (if n % 10240 > 0 then [n % 10240] else []) := by
  unfold discardInput
  simp only [Nat.reduceMul]
  by_cases hn : n > 0
  · by_cases hrem : n % 10240 > 0
    · simp only [hn, hrem, if_true]
    · simp only [hn, hrem, if_true, if_false, List.append_nil]
  · have h0 : n = 0 := by omega
    subst h0
    simp

theorem discardInput_reads_le (r : Bytes) (n : Nat) :
    ∀ k ∈ (discardInput r n).2, k ≤ 10240 := by
  intro k hk
  rw [discardInput_reads] at hk
  rcases List.mem_append.mp hk with h | h
  · rw [(List.mem_replicate.mp h).2]
  · split_ifs at h with hrem
    · rw [List.mem_singleton.mp h]
      exact Nat.le_of_lt (Nat.mod_lt _ (by decide))
    · simp at h

/-! ## Command dispatch -/

theorem makeEmptyMessage_unregistered (X : Ext) (c : Bytes) (h : c ∉ registeredCommands) :
    makeEmptyMessage X c = Except.error (Error.errorf (Desc.unhandledCommand c)) := by
  simp only [registeredCommands, List.mem_cons, List.mem_singleton, not_or, List.not_mem_nil,
    not_false_eq_true, and_true] at h
  unfold makeEmptyMessage
  simp only [h, if_false]

theorem registered_of_ok (X : Ext) (c : Bytes) (msg : Message X)
    (h : makeEmptyMessage X c = Except.ok msg) : c ∈ registeredCommands := by
  by_contra hc
  rw [makeEmptyMessage_unregistered X c hc] at h
  cases h

theorem ValidString_registeredCommands : ∀ c ∈ registeredCommands, ValidString c = true := by
  decide

theorem registeredCommands_subset : ∀ c ∈ registeredCommands, c ∈ declaredCommands := by
  decide

theorem CmdMHashReveal_not_registered : CmdMHashReveal ∉ registeredCommands := by
  decide

theorem makeEmptyMessage_CmdMissing (X : Ext) :
    makeEmptyMessage X CmdMissing = Except.ok (emptyMissing X) := by
  rfl

theorem makeEmptyMessage_CmdMHashReveal (X : Ext) :
    makeEmptyMessage X CmdMHashReveal
      = Except.error (Error.errorf (Desc.unhandledCommand CmdMHashReveal)) := by
  rfl

/-! ## The gates of ReadMessageN, one lemma per exit -/

theorem ReadMessageN_shortHeader (X : Ext) (r : Bytes) (pver btcnet : Nat)
    (h : r.length < 24) :
    ReadMessageN X r pver btcnet =
      ⟨Outcome.returns ⟨r.length, none, none,
          some (if r.length = 0 then Error.EOF else Error.ErrUnexpectedEOF)⟩,
        [], [Event.read 24]⟩ := by
  unfold ReadMessageN
  rw [readMessageHeader_of_lt r h]
  simp only [Nat.zero_add, MessageHeaderSize]

theorem ReadMessageN_headerTooLarge (X : Ext) (r : Bytes) (pver btcnet : Nat)
    (h : 24 ≤ r.length) (hbig : (headerOf r).length > MaxMessagePayload) :
    ReadMessageN X r pver btcnet =
      ⟨Outcome.returns ⟨24, none, none, some (Error.messageError Func.ReadMessage
          (Desc.headerTooLarge (headerOf r).length MaxMessagePayload))⟩,
        r.drop 24, [Event.read 24]⟩ := by
  unfold ReadMessageN
  rw [readMessageHeader_of_le r h]
  simp only [hbig, if_true, Nat.zero_add, MessageHeaderSize]

theorem ReadMessageN_otherNetwork (X : Ext) (r : Bytes) (pver btcnet : Nat)
    (h : 24 ≤ r.length) (hsmall : (headerOf r).length ≤ MaxMessagePayload)
    (hnet : (headerOf r).magic ≠ btcnet) :
    ReadMessageN X r pver btcnet =
      ⟨Outcome.returns ⟨24, none, none, some (Error.messageError Func.ReadMessage
          (Desc.otherNetwork (headerOf r).magic))⟩,
        (discardInput (r.drop 24) (headerOf r).length).1,
        Event.read 24 :: (discardInput (r.drop 24) (headerOf r).length).2.map Event.discard⟩ := by
  unfold ReadMessageN
  rw [readMessageHeader_of_le r h]
  have h1 : ¬ (headerOf r).length > MaxMessagePayload := by omega
  simp only [h1, hnet, if_true, if_false, Nat.zero_add, MessageHeaderSize, ne_eq,
    not_false_eq_true, List.singleton_append]

theorem ReadMessageN_invalidCommand (X : Ext) (r : Bytes) (pver btcnet : Nat)
    (h : 24 ≤ r.length) (hsmall : (headerOf r).length ≤ MaxMessagePayload)
    (hnet : (headerOf r).magic = btcnet) (hbad : ValidString (headerOf r).command = false) :
    ReadMessageN X r pver btcnet =
      ⟨Outcome.returns ⟨24, none, none, some (Error.messageError Func.ReadMessage
          (Desc.invalidCommand (headerOf r).command))⟩,
        (discardInput (r.drop 24) (headerOf r).length).1,
        Event.read 24 :: (discardInput (r.drop 24) (headerOf r).length).2.map Event.discard⟩ := by
  unfold ReadMessageN
  rw [readMessageHeader_of_le r h]
  have h1 : ¬ (headerOf r).length > MaxMessagePayload := by omega
  simp only [h1, hnet, hbad, if_true, if_false, Nat.zero_add, MessageHeaderSize, ne_eq,
    not_true_eq_false, Bool.not_false, List.singleton_append]

theorem ReadMessageN_unhandled (X : Ext) (r : Bytes) (pver btcnet : Nat) (e : Error)
    (h : 24 ≤ r.length) (hsmall : (headerOf r).length ≤ MaxMessagePayload)
    (hnet : (headerOf r).magic = btcnet) (hval : ValidString (headerOf r).command = true)
    (hreg : makeEmptyMessage X (headerOf r).command = Except.error e) :
    ReadMessageN X r pver btcnet =
      ⟨Outcome.returns ⟨24, none, none, some (Error.messageError Func.ReadMessage
          (Desc.unhandledCommand (headerOf r).command))⟩,
        (discardInput (r.drop 24) (headerOf r).length).1,
        Event.read 24 :: (discardInput (r.drop 24) (headerOf r).length).2.map Event.discard⟩ := by
  unfold ReadMessageN
  rw [readMessageHeader_of_le r h]
  have h1 : ¬ (headerOf r).length > MaxMessagePayload := by omega
  simp only [h1, hnet, hval, hreg, if_true, if_false, Nat.zero_add, MessageHeaderSize, ne_eq,
    not_true_eq_false, Bool.not_true, List.singleton_append, Bool.false_eq_true]

theorem ReadMessageN_exceedsTypeMax (X : Ext) (r : Bytes) (pver btcnet : Nat)
    (msg : Message X)
    (h : 24 ≤ r.length) (hsmall : (headerOf r).length ≤ MaxMessagePayload)
    (hnet : (headerOf r).magic = btcnet) (hval : ValidString (headerOf r).command = true)
    (hreg : makeEmptyMessage X (headerOf r).command = Except.ok msg)
    (hbig : (headerOf r).length > msg.MaxPayloadLength pver) :
    ReadMessageN X r pver btcnet =
      ⟨Outcome.returns ⟨24, none, none, some (Error.messageError Func.ReadMessage
          (Desc.exceedsTypeMax (headerOf r).length (headerOf r).command
            (msg.MaxPayloadLength pver)))⟩,
        (discardInput (r.drop 24) (headerOf r).length).1,
        Event.read 24 :: (discardInput (r.drop 24) (headerOf r).length).2.map Event.discard⟩ := by
  unfold ReadMessageN
  rw [readMessageHeader_of_le r h]
  have h1 : ¬ (headerOf r).length > MaxMessagePayload := by omega
  simp only [h1, hnet, hval, hreg, hbig, if_true, if_false, Nat.zero_add, MessageHeaderSize,
    ne_eq, not_true_eq_false, Bool.not_true, List.singleton_append, Bool.false_eq_true]

/-- Past the size, network and command gates, with the payload present:
ReadMessageN reads the payload, compares the checksum and decodes. -/
theorem ReadMessageN_payload (X : Ext) (r : Bytes) (pver btcnet : Nat) (msg : Message X)
    (h : 24 ≤ r.length) (hsmall : (headerOf r).length ≤ MaxMessagePayload)
    (hnet : (headerOf r).magic = btcnet) (hval : ValidString (headerOf r).command = true)
    (hreg : makeEmptyMessage X (headerOf r).command = Except.ok msg)
    (hfit : (headerOf r).length ≤ msg.MaxPayloadLength pver)
    (hfollow : (headerOf r).length ≤ (r.drop 24).length) :
    ReadMessageN X r pver btcnet =
      (let payload := (r.drop 24).take (headerOf r).length
       let rest := (r.drop 24).drop (headerOf r).length
       let trace := [Event.read 24, Event.read (headerOf r).length]
       let checksum := (X.DoubleSha256 payload).take 4
       if checksum ≠ (headerOf r).checksum then
         ⟨Outcome.returns ⟨24 + payload.length, none, none,
             some (Error.messageError Func.ReadMessage
               (Desc.checksumFailed (headerOf r).checksum checksum))⟩, rest, trace⟩
       else
         match msg.BtcDecode payload pver with
         | Outcome.panics => ⟨Outcome.panics, rest, trace ++ [Event.decode]⟩
         | Outcome.returns (_, some err) =>
           ⟨Outcome.returns ⟨24 + payload.length, none, none, some err⟩, rest,
             trace ++ [Event.decode]⟩
         | Outcome.returns (msg1, none) =>
           ⟨Outcome.returns ⟨24 + payload.length, some msg1, some payload, none⟩, rest,
             trace ++ [Event.decode]⟩) := by
  unfold ReadMessageN
  rw [readMessageHeader_of_le r h]
  have h1 : ¬ (headerOf r).length > MaxMessagePayload := by omega
  have h2 : ¬ (headerOf r).length > msg.MaxPayloadLength pver := by omega
  simp only [h1, h2, hnet, hval, hreg, if_true, if_false, Nat.zero_add, MessageHeaderSize,
    ne_eq, not_true_eq_false, Bool.not_true, List.singleton_append, Bool.false_eq_true,
    ReadFull_of_le _ _ hfollow, List.cons_append, List.nil_append]

/-! ## Writing -/

theorem wireHeader_length (X : Ext) (btcnet : Nat) (cmd payload : Bytes)
    (hcmd : cmd.length ≤ CommandSize) (hhash : 4 ≤ (X.DoubleSha256 payload).length) :
    (wireHeader X btcnet cmd payload).length = 24 := by
  simp only [wireHeader, List.length_append, bigEndianPutUint32_length, List.length_replicate,
    List.length_take, CommandSize] at *
  omega

theorem copyInto_of_le (n : Nat) (src : Bytes) (h : src.length ≤ n) :
    copyInto n src = src ++ List.replicate (n - src.length) 0 := by
  simp [copyInto, List.take_of_length_le h]

theorem copyInto_take (n : Nat) (src : Bytes) (h : n ≤ src.length) :
    copyInto n (src.take n) = src.take n := by
  simp [copyInto, h]

/-- The header WriteMessageN writes is the header of the spec. -/
theorem writeElements_eq_wireHeader (X : Ext) (btcnet : Nat) (cmd payload : Bytes)
    (hcmd : cmd.length ≤ CommandSize) (hlen : payload.length ≤ MaxMessagePayload)
    (hhash : 4 ≤ (X.DoubleSha256 payload).length) :
    writeElements btcnet (copyInto CommandSize cmd) (payload.length % 2 ^ 32)
        (copyInto 4 ((X.DoubleSha256 payload).take 4))
      = wireHeader X btcnet cmd payload := by
  have h1 : payload.length % 2 ^ 32 = payload.length := by
    apply Nat.mod_eq_of_lt
    simp only [MaxMessagePayload] at hlen
    norm_num
    omega
  rw [h1, copyInto_of_le _ _ hcmd, copyInto_take _ _ hhash]
  simp [writeElements, wireHeader]

theorem Writer.Write_ok (w : Writer) (p : Bytes) (n : Nat) (w1 : Writer)
    (h : w.Write p = (n, none, w1)) : n = p.length ∧ w1.out = w.out ++ p := by
  unfold Writer.Write at h
  split at h
  · simp only [Prod.mk.injEq, true_and] at h
    exact ⟨h.1.symm, by rw [← h.2]⟩
  · split_ifs at h
    · simp only [Prod.mk.injEq, true_and] at h
      exact ⟨h.1.symm, by rw [← h.2]⟩
    · simp at h

theorem Writer.Write_of_room (w : Writer) (p : Bytes)
    (h : ∀ k, w.room = some k → p.length ≤ k) :
    w.Write p = (p.length, none,
      { out := w.out ++ p, room := w.room.map (fun k => k - p.length) }) := by
  unfold Writer.Write
  cases hr : w.room with
  | none => simp
  | some k => simp [h k hr]

theorem WriteMessageN_success (X : Ext) (w : Writer) (msg : Message X) (pver btcnet n : Nat)
    (w1 : Writer) (hok : WriteMessageN w msg pver btcnet = (n, none, w1)) :
    msg.Command.length ≤ CommandSize ∧ (msg.BtcEncode pver).2 = none ∧
    (msg.BtcEncode pver).1.length ≤ MaxMessagePayload ∧
    (msg.BtcEncode pver).1.length ≤ msg.MaxPayloadLength pver ∧
    ∃ hw, hw = writeElements btcnet (copyInto CommandSize msg.Command)
        ((msg.BtcEncode pver).1.length % 2 ^ 32)
        (copyInto 4 ((X.DoubleSha256 (msg.BtcEncode pver).1).take 4)) ∧
      n = hw.length + (msg.BtcEncode pver).1.length ∧
      w1.out = w.out ++ hw ++ (msg.BtcEncode pver).1 := by
  unfold WriteMessageN at hok
  by_cases hc : msg.Command.length > CommandSize
  · simp only [hc, if_true, Prod.mk.injEq, reduceCtorEq, and_false, false_and] at hok
  · rcases henc : msg.BtcEncode pver with ⟨payload, err⟩
    rw [henc] at hok
    cases err with
    | some e => simp only [hc, if_false, Prod.mk.injEq, reduceCtorEq, and_false, false_and] at hok
    | none =>
      by_cases hmax : payload.length > MaxMessagePayload
      · simp only [hc, hmax, if_true, if_false, Prod.mk.injEq, reduceCtorEq, and_false,
          false_and] at hok
      · by_cases hmpl : payload.length % 2 ^ 32 > msg.MaxPayloadLength pver
        · simp only [hc, hmax, hmpl, if_true, if_false, Prod.mk.injEq, reduceCtorEq, and_false,
            false_and] at hok
        · simp only [hc, hmax, hmpl, if_false, Nat.zero_add] at hok
          have hmod : payload.length % 2 ^ 32 = payload.length := by
            apply Nat.mod_eq_of_lt
            simp only [MaxMessagePayload] at hmax
            norm_num
            omega
          rcases hW1 : w.Write (writeElements btcnet (copyInto CommandSize msg.Command)
              (payload.length % 2 ^ 32) (copyInto 4 ((X.DoubleSha256 payload).take 4)))
            with ⟨n1, e1, w2⟩
          rw [hW1] at hok
          cases e1 with
          | some e => simp only [Prod.mk.injEq, reduceCtorEq, and_false, false_and] at hok
          | none =>
            dsimp only at hok
            rcases hW2 : w2.Write payload with ⟨n2, e2, w3⟩
            rw [hW2] at hok
            cases e2 with
            | some e => simp only [Prod.mk.injEq, reduceCtorEq, and_false, false_and] at hok
            | none =>
              dsimp only at hok
              simp only [Prod.mk.injEq, true_and] at hok
              obtain ⟨h1, h2⟩ := Writer.Write_ok _ _ _ _ hW1
              obtain ⟨h3, h4⟩ := Writer.Write_ok _ _ _ _ hW2
              rw [hmod] at hmpl
              refine ⟨Nat.le_of_not_gt hc, rfl, Nat.le_of_not_gt hmax, Nat.le_of_not_gt hmpl,
                _, rfl, ?_, ?_⟩
              · rw [← hok.1, h1, h3]
              · rw [← hok.2, h4, h2]

theorem copyInto_length (n : Nat) (src : Bytes) : (copyInto n src).length = n := by
  simp only [copyInto, List.length_append, List.length_take, List.length_replicate]
  omega

theorem writeElements_length (magic length : Nat) (command checksum : Bytes)
    (hc : command.length = 12) (hs : checksum.length = 4) :
    (writeElements magic command length checksum).length = 24 := by
  simp only [writeElements, List.length_append, bigEndianPutUint32_length, hc, hs]

/-- WriteMessageN refuses a message whose command or payload is too long:
error, count 0, writer untouched. -/
theorem WriteMessageN_rejects (X : Ext) (w : Writer) (msg : Message X) (pver btcnet : Nat)
    (hbad : msg.Command.length > CommandSize ∨
      (msg.BtcEncode pver).1.length > MaxMessagePayload ∨
      (msg.BtcEncode pver).1.length > msg.MaxPayloadLength pver) :
    ∃ err, WriteMessageN w msg pver btcnet = (0, some err, w) := by
  unfold WriteMessageN
  by_cases hc : msg.Command.length > CommandSize
  · simp only [hc, if_true]
    exact ⟨_, rfl⟩
  · rcases henc : msg.BtcEncode pver with ⟨payload, err⟩
    rw [henc] at hbad
    cases err with
    | some e =>
      simp only [hc, if_false]
      exact ⟨_, rfl⟩
    | none =>
      by_cases hmax : payload.length > MaxMessagePayload
      · simp only [hc, hmax, if_true, if_false]
        exact ⟨_, rfl⟩
      · have hmod : payload.length % 2 ^ 32 = payload.length := by
          apply Nat.mod_eq_of_lt
          simp only [MaxMessagePayload] at hmax
          norm_num
          omega
        have hmpl : payload.length % 2 ^ 32 > msg.MaxPayloadLength pver := by
          rw [hmod]
          rcases hbad with h1 | h1 | h1
          · exact absurd h1 hc
          · exact absurd h1 hmax
          · exact h1
        simp only [hc, hmax, hmpl, if_true, if_false]
        exact ⟨_, rfl⟩

/-- WriteMessageN on a message that passes the three size checks, with a
payload encoded without error and a writer that has room for all the bytes. -/
theorem WriteMessageN_accepts (X : Ext) (w : Writer) (msg : Message X) (pver btcnet : Nat)
    (hc : msg.Command.length ≤ CommandSize)
    (henc : (msg.BtcEncode pver).2 = none)
    (hmax : (msg.BtcEncode pver).1.length ≤ MaxMessagePayload)
    (hmpl : (msg.BtcEncode pver).1.length ≤ msg.MaxPayloadLength pver)
    (hroom : ∀ k, w.room = some k → 24 + (msg.BtcEncode pver).1.length ≤ k) :
    WriteMessageN w msg pver btcnet =
      (24 + (msg.BtcEncode pver).1.length, none,
        { out := w.out ++ writeElements btcnet (copyInto CommandSize msg.Command)
            ((msg.BtcEncode pver).1.length % 2 ^ 32)
            (copyInto 4 ((X.DoubleSha256 (msg.BtcEncode pver).1).take 4))
            ++ (msg.BtcEncode pver).1,
          room := w.room.map (fun k => k - 24 - (msg.BtcEncode pver).1.length) }) := by
  unfold WriteMessageN
  rcases hpe : msg.BtcEncode pver with ⟨payload, err⟩
  rw [hpe] at henc hmax hmpl hroom
  simp only at henc hmax hmpl hroom
  subst henc
  have hmod : payload.length % 2 ^ 32 = payload.length := by
    apply Nat.mod_eq_of_lt
    simp only [MaxMessagePayload] at hmax
    norm_num
    omega
  have h1 : ¬ msg.Command.length > CommandSize := by omega
  have h2 : ¬ payload.length > MaxMessagePayload := by omega
  have h3 : ¬ payload.length % 2 ^ 32 > msg.MaxPayloadLength pver := by omega
  have hwl : (writeElements btcnet (copyInto CommandSize msg.Command)
      (payload.length % 2 ^ 32) (copyInto 4 ((X.DoubleSha256 payload).take 4))).length = 24 :=
    writeElements_length _ _ _ _ (copyInto_length _ _) (copyInto_length _ _)
  simp only [h1, h2, h3, if_false, Nat.zero_add]
  rw [Writer.Write_of_room w _ (by intro k hk; have := hroom k hk; omega)]
  dsimp only
  rw [Writer.Write_of_room _ payload (by
    intro k hk
    cases hr : w.room with
    | none => simp [hr] at hk
    | some k0 =>
      have := hroom k0 hr
      simp only [hr, Option.map_some', Option.some.injEq] at hk
      omega)]
  dsimp only
  rw [hwl]
  cases hr : w.room <;> simp [List.append_assoc]

/-! ## Write, then read -/

theorem headerOf_append (a p l c rest : Bytes) (ha : a.length = 4) (hp : p.length = 12)
    (hl : l.length = 4) (hc : c.length = 4) :
    headerOf (a ++ p ++ l ++ c ++ rest) =
      { magic := bigEndianUint32 a, command := TrimRightZero p,
        length := bigEndianUint32 l, checksum := c } := by
  have h24 : (a ++ p ++ l ++ c ++ rest).take 24 = a ++ (p ++ (l ++ c)) := by
    rw [← List.append_assoc a, ← List.append_assoc (a ++ p)]
    apply List.take_left'
    simp [ha, hp, hl, hc]
  have e1 : (a ++ (p ++ (l ++ c))).take 4 = a := List.take_left' ha
  have e2 : (a ++ (p ++ (l ++ c))).drop 4 = p ++ (l ++ c) := List.drop_left' ha
  have e3 : (p ++ (l ++ c)).take 12 = p := List.take_left' hp
  have e4 : (a ++ (p ++ (l ++ c))).drop 16 = l ++ c := by
    rw [← List.append_assoc]
    exact List.drop_left' (by simp [ha, hp])
  have e5 : (l ++ c).take 4 = l := List.take_left' hl
  have e6 : (a ++ (p ++ (l ++ c))).drop 20 = c := by
    rw [← List.append_assoc, ← List.append_assoc]
    exact List.drop_left' (by simp [ha, hp, hl])
  have e7 : c.take 4 = c := List.take_of_length_le (by omega)
  simp only [headerOf, h24, e1, e2, e3, e4, e5, e6, e7, CommandSize]

theorem drop_frame (hw payload : Bytes) (h : hw.length = 24) :
    (hw ++ payload).drop 24 = payload := List.drop_left' h

theorem TrimRightZero_CmdMissing :
    TrimRightZero (CmdMissing ++ List.replicate (CommandSize - CmdMissing.length) 0)
      = CmdMissing := by
  decide

theorem headerOf_wireHeader_missing (X : Ext) (N : Nat) (payload : Bytes)
    (hN : N < 2 ^ 32) (hp : payload.length < 2 ^ 32)
    (hhash : 4 ≤ (X.DoubleSha256 payload).length) :
    headerOf (wireHeader X N CmdMissing payload ++ payload) =
      { magic := N, command := CmdMissing, length := payload.length,
        checksum := (X.DoubleSha256 payload).take 4 } := by
  unfold wireHeader
  rw [headerOf_append _ _ _ _ _ (bigEndianPutUint32_length N) (by decide)
    (bigEndianPutUint32_length _) (by simp; omega), bigEndianUint32_put N hN,
    bigEndianUint32_put _ hp, TrimRightZero_CmdMissing]

/-! ## The count ReadMessageN returns -/

theorem ReadFull_of_gt (r : Bytes) (k : Nat) (h : r.length < k) :
    ReadFull r k =
      (r, some (if r.length = 0 then Error.EOF else Error.ErrUnexpectedEOF), []) := by
  have h1 : ¬ k ≤ r.length := by omega
  by_cases h0 : r.length = 0
  · have hnil : r = [] := List.length_eq_zero.mp h0
    subst hnil
    have hk : ¬ k = 0 := by
      simp only [List.length_nil] at h
      omega
    simp [ReadFull, hk]
  · simp [ReadFull, h1, h0]

theorem ReadMessageN_shortPayload (X : Ext) (r : Bytes) (pver btcnet : Nat) (msg : Message X)
    (h : 24 ≤ r.length) (hsmall : (headerOf r).length ≤ MaxMessagePayload)
    (hnet : (headerOf r).magic = btcnet) (hval : ValidString (headerOf r).command = true)
    (hreg : makeEmptyMessage X (headerOf r).command = Except.ok msg)
    (hfit : (headerOf r).length ≤ msg.MaxPayloadLength pver)
    (hshort : (r.drop 24).length < (headerOf r).length) :
    ReadMessageN X r pver btcnet =
      ⟨Outcome.returns ⟨24 + (r.drop 24).length, none, none,
          some (if (r.drop 24).length = 0 then Error.EOF else Error.ErrUnexpectedEOF)⟩,
        [], [Event.read 24, Event.read (headerOf r).length]⟩ := by
  unfold ReadMessageN
  rw [readMessageHeader_of_le r h]
  have h1 : ¬ (headerOf r).length > MaxMessagePayload := by omega
  have h2 : ¬ (headerOf r).length > msg.MaxPayloadLength pver := by omega
  have h3 : ¬ (headerOf r).length ≤ (r.drop 24).length := by omega
  simp only [h1, h2, hnet, hval, hreg, if_true, if_false, Nat.zero_add, MessageHeaderSize,
    ne_eq, not_true_eq_false, Bool.not_true, List.singleton_append, Bool.false_eq_true,
    List.cons_append, List.nil_append, ReadFull_of_gt _ _ hshort]

theorem discardInput_zero (r : Bytes) : discardInput r 0 = (r, []) := by
  simp [discardInput, discardLoop]

theorem discardInput_reads_nil (r : Bytes) (n : Nat) (h : (discardInput r n).2 = []) :
    n = 0 := by
  rw [discardInput_reads] at h
  have h1 := (List.append_eq_nil.mp h).1
  have h2 := (List.append_eq_nil.mp h).2
  have hq : n / 10240 = 0 := by
    by_contra hne
    obtain ⟨k, hk⟩ := Nat.exists_eq_succ_of_ne_zero hne
    rw [hk] at h1
    simp [List.replicate_succ] at h1
  have hm : ¬ n % 10240 > 0 := by
    intro hpos
    simp [hpos] at h2
  omega

/-- The stream discardInput leaves when the trace shows no read by it. -/
theorem discardInput_silent (r : Bytes) (n : Nat)
    (h : ∀ k, Event.discard k ∉ Event.read 24 :: (discardInput r n).2.map Event.discard) :
    (discardInput r n).1 = r := by
  have hnil : (discardInput r n).2 = [] := by
    cases hd : (discardInput r n).2 with
    | nil => rfl
    | cons a l =>
      exfalso
      apply h a
      rw [hd]
      simp
  rw [discardInput_reads_nil r n hnil, discardInput_zero]

/-- On every run in which discardInput reads nothing, the count ReadMessageN
returns is the number of bytes it took from the stream. -/
theorem ReadMessageN_count_exact (X : Ext) (r : Bytes) (pver btcnet : Nat)
    (res : ReadResult X)
    (hret : (ReadMessageN X r pver btcnet).result = Outcome.returns res)
    (hsilent : ∀ k, Event.discard k ∉ (ReadMessageN X r pver btcnet).trace) :
    res.n = r.length - (ReadMessageN X r pver btcnet).rest.length := by
  by_cases h24 : r.length < 24
  · rw [ReadMessageN_shortHeader X r pver btcnet h24] at hret ⊢
    simp only [Outcome.returns.injEq] at hret
    rw [← hret]
    simp
  have h : 24 ≤ r.length := by omega
  have hd24 : r.length - (r.drop 24).length = 24 := by
    simp only [List.length_drop]; omega
  by_cases hbig : (headerOf r).length > MaxMessagePayload
  · rw [ReadMessageN_headerTooLarge X r pver btcnet h hbig] at hret ⊢
    simp only [Outcome.returns.injEq] at hret
    rw [← hret]
    exact hd24.symm
  have hsmall : (headerOf r).length ≤ MaxMessagePayload := by omega
  by_cases hnet : (headerOf r).magic = btcnet
  swap
  · rw [ReadMessageN_otherNetwork X r pver btcnet h hsmall hnet] at hret hsilent ⊢
    simp only [Outcome.returns.injEq] at hret
    rw [← hret]
    simp only
    rw [discardInput_silent _ _ hsilent]
    exact hd24.symm
  by_cases hval : ValidString (headerOf r).command = true
  swap
  · have hbad : ValidString (headerOf r).command = false := by
      cases hv : ValidString (headerOf r).command
      · rfl
      · exact absurd hv hval
    rw [ReadMessageN_invalidCommand X r pver btcnet h hsmall hnet hbad] at hret hsilent ⊢
    simp only [Outcome.returns.injEq] at hret
    rw [← hret]
    simp only
    rw [discardInput_silent _ _ hsilent]
    exact hd24.symm
  cases hreg : makeEmptyMessage X (headerOf r).command with
  | error e =>
    rw [ReadMessageN_unhandled X r pver btcnet e h hsmall hnet hval hreg] at hret hsilent ⊢
    simp only [Outcome.returns.injEq] at hret
    rw [← hret]
    simp only
    rw [discardInput_silent _ _ hsilent]
    exact hd24.symm
  | ok msg =>
    by_cases hbig2 : (headerOf r).length > msg.MaxPayloadLength pver
    · rw [ReadMessageN_exceedsTypeMax X r pver btcnet msg h hsmall hnet hval hreg hbig2]
        at hret hsilent ⊢
      simp only [Outcome.returns.injEq] at hret
      rw [← hret]
      simp only
      rw [discardInput_silent _ _ hsilent]
      exact hd24.symm
    have hfit : (headerOf r).length ≤ msg.MaxPayloadLength pver := by omega
    by_cases hfollow : (headerOf r).length ≤ (r.drop 24).length
    swap
    · rw [ReadMessageN_shortPayload X r pver btcnet msg h hsmall hnet hval hreg hfit
        (by omega)] at hret ⊢
      simp only [Outcome.returns.injEq] at hret
      rw [← hret]
      simp only [List.length_drop, List.length_nil]
      omega
    · rw [ReadMessageN_payload X r pver btcnet msg h hsmall hnet hval hreg hfit hfollow]
        at hret ⊢
      have hl : ((r.drop 24).take (headerOf r).length).length = (headerOf r).length := by
        simp only [List.length_take]; omega
      have hc : 24 + (headerOf r).length
          = r.length - ((r.drop 24).drop (headerOf r).length).length := by
        simp only [List.length_drop] at hfollow ⊢
        omega
      simp only at hret ⊢
      split at hret
      · simp only [Outcome.returns.injEq] at hret
        rw [← hret, if_pos (by assumption)]
        simp only [hl]
        exact hc
      · rw [if_neg (by assumption)]
        split at hret
        · cases hret
        · simp only [Outcome.returns.injEq] at hret
          rw [← hret]
          simp only [hl]
          exact hc
        · simp only [Outcome.returns.injEq] at hret
          rw [← hret]
          simp only [hl]
          exact hc

/-! ## Bit flips, and the size of a MsgMissing payload -/

set_option maxRecDepth 1000000 in
/-- The model of SHA-256 on the test vector "abc" of FIPS 180-4. -/
theorem sha256_abc : sha256 (str "abc") =
    [0xba, 0x78, 0x16, 0xbf, 0x8f, 0x01, 0xcf, 0xea, 0x41, 0x41, 0x40, 0xde, 0x5d, 0xae, 0x22,
     0x23, 0xb0, 0x03, 0x61, 0xa3, 0x96, 0x17, 0x7a, 0x9c, 0xb4, 0x10, 0xff, 0x61, 0xf2, 0x00,
     0x15, 0xad] := by
  decide

theorem flipBit_length (bs : Bytes) (i : Nat) : (flipBit bs i).length = bs.length := by
  induction bs generalizing i with
  | nil => rfl
  | cons b rest ih =>
    unfold flipBit
    split_ifs
    · rfl
    · simp [ih]

theorem flipBit_append (a b : Bytes) (j : Nat) :
    flipBit (a ++ b) (8 * a.length + j) = a ++ flipBit b j := by
  induction a with
  | nil => simp
  | cons x rest ih =>
    have h1 : ¬ (8 * (x :: rest).length + j < 8) := by
      simp only [List.length_cons]; omega
    have h2 : 8 * (x :: rest).length + j - 8 = 8 * rest.length + j := by
      simp only [List.length_cons]; omega
    rw [List.cons_append, flipBit, if_neg h1, h2, ih, List.cons_append]

theorem headerOf_wireHeader (X : Ext) (N : Nat) (cmd payload rest : Bytes)
    (hN : N < 2 ^ 32) (hcmd : cmd.length ≤ CommandSize) (hp : payload.length < 2 ^ 32)
    (hhash : 4 ≤ (X.DoubleSha256 payload).length) :
    headerOf (wireHeader X N cmd payload ++ rest) =
      { magic := N,
        command := TrimRightZero (cmd ++ List.replicate (CommandSize - cmd.length) 0),
        length := payload.length,
        checksum := (X.DoubleSha256 payload).take 4 } := by
  unfold wireHeader
  rw [headerOf_append _ _ _ _ _ (bigEndianPutUint32_length N)
    (by simp only [List.length_append, List.length_replicate, CommandSize] at *; omega)
    (bigEndianPutUint32_length _) (by simp; omega), bigEndianUint32_put N hN,
    bigEndianUint32_put _ hp]

theorem MsgMissing.BtcEncode_length {X : Ext} (m : MsgMissing X) (pver : Nat)
    (hsig : (X.MarshalBinarySignature m.Sig).length = 96) :
    (m.BtcEncode pver).1.length = 105 + m.ReqNodeID.length := by
  simp only [MsgMissing.BtcEncode, List.length_append, bigEndianPutUint32_length,
    List.length_cons, List.length_nil, hsig]
  omega

/-- WriteMessageN refuses a MsgMissing whose payload exceeds 255 bytes with a
size error. -/
theorem WriteMessageN_missing_rejects {X : Ext} (m : MsgMissing X) (w : Writer)
    (pver btcnet : Nat) (hbig : 255 < (m.BtcEncode pver).1.length) :
    ∃ err, WriteMessageN w (Message.missing m) pver btcnet = (0, some err, w) ∧
      err.isSize = true := by
  unfold WriteMessageN
  have hc : ¬ (Message.missing m).Command.length > CommandSize := by
    show ¬ CmdMissing.length > CommandSize
    decide
  have henc : (Message.missing m).BtcEncode pver = ((m.BtcEncode pver).1, none) := rfl
  simp only [hc, if_false, henc]
  by_cases hmax : (m.BtcEncode pver).1.length > MaxMessagePayload
  · simp only [hmax, if_true]
    exact ⟨_, rfl, rfl⟩
  · have hmod : (m.BtcEncode pver).1.length % 2 ^ 32 = (m.BtcEncode pver).1.length := by
      apply Nat.mod_eq_of_lt
      simp only [MaxMessagePayload] at hmax
      norm_num
      omega
    have hmpl : (m.BtcEncode pver).1.length % 2 ^ 32
        > (Message.missing m).MaxPayloadLength pver := by
      rw [hmod]
      exact hbig
    simp only [hmax, hmpl, if_true, if_false]
    exact ⟨_, rfl, rfl⟩

/-! ## The digests of the modelled hash functions -/

theorem beBytes_length (l : List Nat) : (beBytes l).length = 4 * l.length := by
  induction l with
  | nil => rfl
  | cons v rest ih =>
    simp only [beBytes, List.length_cons, ih]
    omega

theorem sha256Block_length (hs : List Nat) (block : Bytes) :
    (sha256Block hs block).length = 8 := by
  simp [sha256Block]

theorem sha256Blocks_length (n : Nat) (hs : List Nat) (data : Bytes) (h : hs.length = 8) :
    (sha256Blocks n hs data).length = 8 := by
  induction n generalizing hs data with
  | zero => exact h
  | succ k ih => exact ih _ _ (sha256Block_length _ _)

/-- A SHA-256 digest has 32 bytes. -/
theorem sha256_length (msg : Bytes) : (sha256 msg).length = 32 := by
  simp only [sha256, beBytes_length]
  rw [sha256Blocks_length _ sha256Init _ rfl]

theorem DoubleSha256_length (b : Bytes) : (DoubleSha256 b).length = 32 :=
  sha256_length _

set_option maxRecDepth 1000000 in
/-- The panic of BtcDecode on an empty payload, reached through ReadMessageN
with the SHA-256 checksum of the empty payload. -/
theorem ReadMessageN_emptyMissingShaFrame_panics :
    (ReadMessageN shaExt emptyMissingShaFrame 1 1).panicked = true := by
  decide

/-! ## Theorems -/

/-- C1: for every MsgMissing `m` with uint32 Height and Index whose signature
marshals to 96 bytes and is equal, under the signature's own Equals, to the
unmarshalling of its marshalled form, BtcEncode writes a payload without
error, and BtcDecode of that payload (into any receiver) returns without
error a message `m'` with the Height, Index, Type and ReqNodeID of `m`, the
unmarshalled signature, and `m.Equals(m')` true. -/
theorem MsgMissing.decode_encode_roundtrip {X : Ext} (m recv : MsgMissing X) (pver : Nat)
    (hH : m.Height < 2 ^ 32) (hI : m.Index < 2 ^ 32)
    (hlen : (X.MarshalBinarySignature m.Sig).length = 96)
    (hsig : X.SignatureEquals m.Sig
      (X.UnmarshalBinarySignature (X.MarshalBinarySignature m.Sig)) = true) :
    (m.BtcEncode pver).2 = none ∧
    ∃ m1 : MsgMissing X,
      recv.BtcDecode (m.BtcEncode pver).1 pver = Outcome.returns (m1, none) ∧
      m.Equals m1 = true ∧
      m1.Height = m.Height ∧ m1.Index = m.Index ∧ m1.Typ = m.Typ ∧
      m1.ReqNodeID = m.ReqNodeID ∧
      m1.Sig = X.UnmarshalBinarySignature (X.MarshalBinarySignature m.Sig) :=
  ⟨rfl, decoded m, MsgMissing.BtcDecode_BtcEncode m recv pver hH hI hlen,
    MsgMissing.Equals_decoded m hsig, rfl, rfl, rfl, rfl, rfl⟩

/-- The round trip of C1 at the sample request, decoded into the zero message. -/
theorem MsgMissing.decode_encode_roundtrip_witness :
    (sampleMissing.BtcEncode 1).2 = none ∧
    ∃ m1 : MsgMissing demoExt,
      (NewMsgMissing demoExt 0 0 0 []).BtcDecode (sampleMissing.BtcEncode 1).1 1
        = Outcome.returns (m1, none) ∧
      sampleMissing.Equals m1 = true ∧
      m1.Height = sampleMissing.Height ∧ m1.Index = sampleMissing.Index ∧
      m1.Typ = sampleMissing.Typ ∧ m1.ReqNodeID = sampleMissing.ReqNodeID ∧
      m1.Sig = demoExt.UnmarshalBinarySignature
        (demoExt.MarshalBinarySignature sampleMissing.Sig) :=
  MsgMissing.decode_encode_roundtrip sampleMissing (NewMsgMissing demoExt 0 0 0 []) 1
    (by decide) (by decide) (by simp [demoExt, copyInto, sampleMissing])
    (by simp [demoExt, copyInto, sampleMissing])

/-- C3 (the code departs from the claim): on every payload shorter than 105
bytes MsgMissing.BtcDecode ends in a run-time panic; it does not return an
error. The slice and index expressions are evaluated without a length check. -/
theorem MsgMissing.BtcDecode_short_panics {X : Ext} (msg : MsgMissing X) (r : Bytes)
    (pver : Nat) (h : r.length < 105) :
    msg.BtcDecode r pver = Outcome.panics ∧
      ∀ m1 err, msg.BtcDecode r pver ≠ Outcome.returns (m1, some err) := by
  rw [MsgMissing.BtcDecode_short msg r pver h]
  exact ⟨rfl, fun m1 err hc => by cases hc⟩

/-- The panic of C3 at the empty payload. -/
theorem MsgMissing.BtcDecode_short_panics_witness :
    ([] : Bytes).length < 105 ∧
    ((NewMsgMissing demoExt 0 0 0 []).BtcDecode [] 1 = Outcome.panics ∧
      ∀ m1 err, (NewMsgMissing demoExt 0 0 0 []).BtcDecode [] 1
        ≠ Outcome.returns (m1, some err)) :=
  ⟨by decide, MsgMissing.BtcDecode_short_panics (NewMsgMissing demoExt 0 0 0 []) [] 1
    (by decide)⟩

/-- The panic of C3 is reachable from the stream: a well-formed "missingmsg"
frame with an empty payload makes ReadMessageN panic inside BtcDecode. -/
theorem ReadMessageN_emptyMissingFrame_panics :
    (ReadMessageN demoExt emptyMissingFrame 1 1).result = Outcome.panics := by
  rfl

/-- C4 as stated fails: "mhashreveal" is one of the 37 declared command
constants, and makeEmptyMessage answers it with the unhandled command error. -/
theorem makeEmptyMessage_declared_counterexample :
    declaredCommands.length = 37 ∧ CmdMHashReveal ∈ declaredCommands ∧
    makeEmptyMessage demoExt CmdMHashReveal
      = Except.error (Error.errorf (Desc.unhandledCommand CmdMHashReveal)) :=
  ⟨by decide, by decide, makeEmptyMessage_CmdMHashReveal demoExt⟩

/-- C4 (amended): for each of the 36 declared command constants other than
CmdMHashReveal, makeEmptyMessage returns, without error, the empty message the
registry pairs with that command (the variant that bears its name; for
"missingmsg" the zero MsgMissing, whose Command() is "missingmsg"); for
CmdMHashReveal and for every string outside the declared list it returns the
unhandled command error. -/
theorem makeEmptyMessage_declared (X : Ext) (c : Bytes) :
    (c ∈ declaredCommands ∧ c ≠ CmdMHashReveal →
      ∃ msg, (c, msg) ∈ registry X ∧ makeEmptyMessage X c = Except.ok msg) ∧
    (c ∉ declaredCommands ∨ c = CmdMHashReveal →
      makeEmptyMessage X c = Except.error (Error.errorf (Desc.unhandledCommand c))) ∧
    (makeEmptyMessage X CmdMissing = Except.ok (emptyMissing X) ∧
      (emptyMissing X).Command = CmdMissing) := by
  refine ⟨?_, ?_, makeEmptyMessage_CmdMissing X, rfl⟩
  · rintro ⟨hmem, hne⟩
    simp only [declaredCommands, List.mem_cons, List.mem_singleton, List.not_mem_nil,
      or_false] at hmem
    rcases hmem with h | h | h | h | h | h | h | h | h | h | h | h | h | h | h | h | h | h | h | h | h | h | h | h | h | h | h | h | h | h | h | h | h | h | h | h | h
    · subst h
      exact ⟨emptyOther X .MsgVersion, by simp only [registry, List.mem_cons, true_or, or_true], rfl⟩
    · subst h
      exact ⟨emptyOther X .MsgVerAck, by simp only [registry, List.mem_cons, true_or, or_true], rfl⟩
    · subst h
      exact ⟨emptyOther X .MsgGetAddr, by simp only [registry, List.mem_cons, true_or, or_true], rfl⟩
    · subst h
      exact ⟨emptyOther X .MsgAddr, by simp only [registry, List.mem_cons, true_or, or_true], rfl⟩
    · subst h
      exact ⟨emptyOther X .MsgInv, by simp only [registry, List.mem_cons, true_or, or_true], rfl⟩
    · subst h
      exact ⟨emptyOther X .MsgNotFound, by simp only [registry, List.mem_cons, true_or, or_true], rfl⟩
    · subst h
      exact ⟨emptyOther X .MsgFBlock, by simp only [registry, List.mem_cons, true_or, or_true], rfl⟩
    · subst h
      exact ⟨emptyOther X .MsgFactoidTX, by simp only [registry, List.mem_cons, true_or, or_true], rfl⟩
    · subst h
      exact ⟨emptyOther X .MsgPing, by simp only [registry, List.mem_cons, true_or, or_true], rfl⟩
    · subst h
      exact ⟨emptyOther X .MsgPong, by simp only [registry, List.mem_cons, true_or, or_true], rfl⟩
    · subst h
      exact ⟨emptyOther X .MsgAlert, by simp only [registry, List.mem_cons, true_or, or_true], rfl⟩
    · subst h
      exact ⟨emptyOther X .MsgReject, by simp only [registry, List.mem_cons, true_or, or_true], rfl⟩
    · subst h
      exact ⟨emptyOther X .MsgGetDirBlocks, by simp only [registry, List.mem_cons, true_or, or_true], rfl⟩
    · subst h
      exact ⟨emptyOther X .MsgDirInv, by simp only [registry, List.mem_cons, true_or, or_true], rfl⟩
    · subst h
      exact ⟨emptyOther X .MsgGetDirData, by simp only [registry, List.mem_cons, true_or, or_true], rfl⟩
    · subst h
      exact ⟨emptyOther X .MsgDirBlock, by simp only [registry, List.mem_cons, true_or, or_true], rfl⟩
    · subst h
      exact ⟨emptyOther X .MsgGetNonDirData, by simp only [registry, List.mem_cons, true_or, or_true], rfl⟩
    · subst h
      exact ⟨emptyOther X .MsgABlock, by simp only [registry, List.mem_cons, true_or, or_true], rfl⟩
    · subst h
      exact ⟨emptyOther X .MsgECBlock, by simp only [registry, List.mem_cons, true_or, or_true], rfl⟩
    · subst h
      exact ⟨emptyOther X .MsgEBlock, by simp only [registry, List.mem_cons, true_or, or_true], rfl⟩
    · subst h
      exact ⟨emptyOther X .MsgGetEntryData, by simp only [registry, List.mem_cons, true_or, or_true], rfl⟩
    · subst h
      exact ⟨emptyOther X .MsgEntry, by simp only [registry, List.mem_cons, true_or, or_true], rfl⟩
    · subst h
      exact ⟨emptyOther X .MsgCommitChain, by simp only [registry, List.mem_cons, true_or, or_true], rfl⟩
    · subst h
      exact ⟨emptyOther X .MsgRevealChain, by simp only [registry, List.mem_cons, true_or, or_true], rfl⟩
    · subst h
      exact ⟨emptyOther X .MsgCommitEntry, by simp only [registry, List.mem_cons, true_or, or_true], rfl⟩
    · subst h
      exact ⟨emptyOther X .MsgRevealEntry, by simp only [registry, List.mem_cons, true_or, or_true], rfl⟩
    · subst h
      exact ⟨emptyOther X .MsgAck, by simp only [registry, List.mem_cons, true_or, or_true], rfl⟩
    · exact absurd h hne
    · subst h
      exact ⟨emptyOther X .MsgEOM, by simp only [registry, List.mem_cons, true_or, or_true], rfl⟩
    · subst h
      exact ⟨emptyOther X .MsgDirBlockSig, by simp only [registry, List.mem_cons, true_or, or_true], rfl⟩
    · subst h
      exact ⟨emptyOther X .MsgNextLeader, by simp only [registry, List.mem_cons, true_or, or_true], rfl⟩
    · subst h
      exact ⟨emptyOther X .MsgNextLeaderResp, by simp only [registry, List.mem_cons, true_or, or_true], rfl⟩
    · subst h
      exact ⟨emptyMissing X, by simp only [registry, List.mem_cons, true_or, or_true], rfl⟩
    · subst h
      exact ⟨emptyOther X .MsgCandidate, by simp only [registry, List.mem_cons, true_or, or_true], rfl⟩
    · subst h
      exact ⟨emptyOther X .MsgCurrentLeader, by simp only [registry, List.mem_cons, true_or, or_true], rfl⟩
    · subst h
      exact ⟨emptyOther X .MsgCurrentLeaderResp, by simp only [registry, List.mem_cons, true_or, or_true], rfl⟩
    · subst h
      exact ⟨emptyOther X .MsgGetFactomData, by simp only [registry, List.mem_cons, true_or, or_true], rfl⟩
  · intro h
    apply makeEmptyMessage_unregistered
    rcases h with h | h
    · exact fun hreg => h (registeredCommands_subset c hreg)
    · rw [h]
      exact CmdMHashReveal_not_registered

/-- The amended C4 at "missingmsg" (declared and dispatched) and at
"mhashreveal" (declared, not dispatched). -/
theorem makeEmptyMessage_declared_witness :
    (∃ msg, (CmdMissing, msg) ∈ registry demoExt ∧
      makeEmptyMessage demoExt CmdMissing = Except.ok msg) ∧
    makeEmptyMessage demoExt CmdMHashReveal
      = Except.error (Error.errorf (Desc.unhandledCommand CmdMHashReveal)) :=
  ⟨(makeEmptyMessage_declared demoExt CmdMissing).1 ⟨by decide, by decide⟩,
   (makeEmptyMessage_declared demoExt CmdMHashReveal).2.1 (Or.inr rfl)⟩

/-- C5: when the header (the first 24 bytes of the stream) declares a length of
at most 32 MiB and is rejected because its network id differs from the
configured one, or its command is not valid UTF-8, or its command is not
registered, and at least `length` bytes follow the header, then ReadMessageN
returns an error and no message, and the stream left starts right after the
declared payload: exactly 24 + length bytes were consumed. -/
theorem ReadMessageN_rejected_drains (X : Ext) (r : Bytes) (pver btcnet : Nat)
    (h : 24 ≤ r.length)
    (hsmall : (headerOf r).length ≤ MaxMessagePayload)
    (hrej : (headerOf r).magic ≠ btcnet ∨ ValidString (headerOf r).command = false ∨
      ∃ e, makeEmptyMessage X (headerOf r).command = Except.error e)
    (hfollow : (headerOf r).length ≤ (r.drop 24).length) :
    ∃ err,
      (ReadMessageN X r pver btcnet).result = Outcome.returns ⟨24, none, none, some err⟩ ∧
      (ReadMessageN X r pver btcnet).rest = r.drop (24 + (headerOf r).length) ∧
      r.length - (ReadMessageN X r pver btcnet).rest.length = 24 + (headerOf r).length := by
  have hdrop : (discardInput (r.drop 24) (headerOf r).length).1
      = r.drop (24 + (headerOf r).length) := by
    rw [discardInput_rest _ _ hfollow, List.drop_drop]
  have hlen : r.length - (r.drop (24 + (headerOf r).length)).length
      = 24 + (headerOf r).length := by
    simp only [List.length_drop] at hfollow ⊢
    omega
  by_cases hnet : (headerOf r).magic = btcnet
  · by_cases hval : ValidString (headerOf r).command = true
    · rcases hrej with h1 | h1 | ⟨e, h1⟩
      · exact absurd hnet h1
      · rw [hval] at h1
        cases h1
      · rw [ReadMessageN_unhandled X r pver btcnet e h hsmall hnet hval h1]
        exact ⟨_, rfl, hdrop, by rw [hdrop]; exact hlen⟩
    · have hbad : ValidString (headerOf r).command = false := by
        cases hv : ValidString (headerOf r).command
        · rfl
        · exact absurd hv hval
      rw [ReadMessageN_invalidCommand X r pver btcnet h hsmall hnet hbad]
      exact ⟨_, rfl, hdrop, by rw [hdrop]; exact hlen⟩
  · rw [ReadMessageN_otherNetwork X r pver btcnet h hsmall hnet]
    exact ⟨_, rfl, hdrop, by rw [hdrop]; exact hlen⟩

/-- C5 at a frame of network 1 read under network 2: the one declared payload
byte is drained and the three bytes of the next frame are left. -/
theorem ReadMessageN_rejected_drains_witness :
    ∃ err,
      (ReadMessageN demoExt foreignFrame 1 2).result
        = Outcome.returns ⟨24, none, none, some err⟩ ∧
      (ReadMessageN demoExt foreignFrame 1 2).rest
        = foreignFrame.drop (24 + (headerOf foreignFrame).length) ∧
      foreignFrame.length - (ReadMessageN demoExt foreignFrame 1 2).rest.length
        = 24 + (headerOf foreignFrame).length :=
  ReadMessageN_rejected_drains demoExt foreignFrame 1 2 (by decide) (by decide)
    (Or.inl (by decide)) (by decide)

/-- C6: when the header declares a length above the protocol-wide maximum of
32 MiB (33554432), whatever its network id and command, ReadMessageN returns
a size error and no message after the header read alone: the count is 24, the
stream left starts right after the 24 header bytes, and the only read is the
header read (no payload read, no discard). -/
theorem ReadMessageN_oversize_not_drained (X : Ext) (r : Bytes) (pver btcnet : Nat)
    (h : 24 ≤ r.length) (hbig : (headerOf r).length > MaxMessagePayload) :
    MaxMessagePayload = 33554432 ∧
    ∃ err,
      (ReadMessageN X r pver btcnet).result = Outcome.returns ⟨24, none, none, some err⟩ ∧
      err.isSize = true ∧
      (ReadMessageN X r pver btcnet).rest = r.drop 24 ∧
      r.length - (ReadMessageN X r pver btcnet).rest.length = 24 ∧
      (ReadMessageN X r pver btcnet).trace = [Event.read 24] := by
  rw [ReadMessageN_headerTooLarge X r pver btcnet h hbig]
  refine ⟨rfl, _, rfl, rfl, rfl, ?_, rfl⟩
  simp only [List.length_drop]
  omega

/-- C6 at a header that declares 33554433 bytes. -/
theorem ReadMessageN_oversize_not_drained_witness :
    MaxMessagePayload = 33554432 ∧
    ∃ err,
      (ReadMessageN demoExt oversizeFrame 1 1).result
        = Outcome.returns ⟨24, none, none, some err⟩ ∧
      err.isSize = true ∧
      (ReadMessageN demoExt oversizeFrame 1 1).rest = oversizeFrame.drop 24 ∧
      oversizeFrame.length - (ReadMessageN demoExt oversizeFrame 1 1).rest.length = 24 ∧
      (ReadMessageN demoExt oversizeFrame 1 1).trace = [Event.read 24] :=
  ReadMessageN_oversize_not_drained demoExt oversizeFrame 1 1 (by decide) (by decide)

set_option maxRecDepth 20000 in
/-- C7 as stated fails: the frame longMissingFrame carries the configured
network id 1, the registered command "missingmsg" and the length 300, which is
at most 32 MiB and more than the 255 of MsgMissing.MaxPayloadLength; the one
read discardInput makes is into a buffer of 300 bytes, the declared length,
and it takes the payload from the stream. No digest is computed on this
path. -/
theorem ReadMessageN_exceeds_type_max_counterexample :
    24 ≤ longMissingFrame.length ∧
    (headerOf longMissingFrame).magic = 1 ∧
    (headerOf longMissingFrame).command = CmdMissing ∧
    makeEmptyMessage demoExt (headerOf longMissingFrame).command
      = Except.ok (emptyMissing demoExt) ∧
    (headerOf longMissingFrame).length = 300 ∧
    (headerOf longMissingFrame).length ≤ MaxMessagePayload ∧
    (headerOf longMissingFrame).length > (emptyMissing demoExt).MaxPayloadLength 1 ∧
    (ReadMessageN demoExt longMissingFrame 1 1).trace = [Event.read 24, Event.discard 300] ∧
    Event.discard (headerOf longMissingFrame).length
      ∈ (ReadMessageN demoExt longMissingFrame 1 1).trace ∧
    (ReadMessageN demoExt longMissingFrame 1 1).rest = [1, 2] :=
  ⟨by decide, by decide, by decide, rfl, by decide⟩

/-- C7 (amended): when the header carries the configured network id and a
registered command (resolved to `msg`), and declares a length of at most
32 MiB that exceeds `msg.MaxPayloadLength(pver)` (255 when the command is
"missingmsg"), then ReadMessageN returns a size error and no message; the
header read is the only read it makes itself (its payload read is never made)
and BtcDecode is not called; the payload is drained through discardInput,
whose buffers are `length / 10240` of 10240 bytes and, when `length % 10240`
is not zero, one of `length % 10240` bytes: none exceeds 10240 bytes, for a
length above 10240 none has `length` bytes, and for a length of at most 10240
the single buffer has exactly `length` bytes; the stream left is the one
discardInput leaves, which is the stream right after the declared payload when
at least `length` bytes follow the header. -/
theorem ReadMessageN_exceeds_type_max (X : Ext) (r : Bytes) (pver btcnet : Nat)
    (msg : Message X)
    (h : 24 ≤ r.length)
    (hnet : (headerOf r).magic = btcnet)
    (hreg : makeEmptyMessage X (headerOf r).command = Except.ok msg)
    (hsmall : (headerOf r).length ≤ MaxMessagePayload)
    (hbig : (headerOf r).length > msg.MaxPayloadLength pver) :
    (∃ err,
      (ReadMessageN X r pver btcnet).result = Outcome.returns ⟨24, none, none, some err⟩ ∧
      err.isSize = true) ∧
    (ReadMessageN X r pver btcnet).rest = (discardInput (r.drop 24) (headerOf r).length).1 ∧
    (ReadMessageN X r pver btcnet).trace
      = Event.read 24 :: (discardInput (r.drop 24) (headerOf r).length).2.map Event.discard ∧
    (∀ k, Event.read k ∈ (ReadMessageN X r pver btcnet).trace → k = 24) ∧
    Event.decode ∉ (ReadMessageN X r pver btcnet).trace ∧
    (discardInput (r.drop 24) (headerOf r).length).2
      = List.replicate ((headerOf r).length / 10240) 10240 ++
        (if (headerOf r).length % 10240 > 0 then [(headerOf r).length % 10240] else []) ∧
    (∀ k ∈ (discardInput (r.drop 24) (headerOf r).length).2, k ≤ 10240) ∧
    (10240 < (headerOf r).length →
      ∀ k ∈ (discardInput (r.drop 24) (headerOf r).length).2, k < (headerOf r).length) ∧
    ((headerOf r).length ≤ 10240 →
      (discardInput (r.drop 24) (headerOf r).length).2 = [(headerOf r).length]) ∧
    ((headerOf r).length ≤ (r.drop 24).length →
      (ReadMessageN X r pver btcnet).rest = r.drop (24 + (headerOf r).length)) ∧
    ((headerOf r).command = CmdMissing → msg.MaxPayloadLength pver = 255) := by
  have hval : ValidString (headerOf r).command = true :=
    ValidString_registeredCommands _ (registered_of_ok X _ msg hreg)
  have hpos : 0 < (headerOf r).length := by omega
  rw [ReadMessageN_exceedsTypeMax X r pver btcnet msg h hsmall hnet hval hreg hbig]
  refine ⟨⟨_, rfl, rfl⟩, rfl, rfl, ?_, ?_, discardInput_reads _ _, discardInput_reads_le _ _,
    ?_, ?_, ?_, ?_⟩
  · intro k hk
    simp only [List.mem_cons, Event.read.injEq, List.mem_map, reduceCtorEq, and_false,
      exists_false, or_false] at hk
    exact hk
  · simp
  · intro hlong k hk
    have := discardInput_reads_le _ _ k hk
    omega
  · intro hshort
    rw [discardInput_reads]
    by_cases heq : (headerOf r).length = 10240
    · rw [heq]
      rfl
    · have hq : (headerOf r).length / 10240 = 0 := by omega
      have hm : (headerOf r).length % 10240 = (headerOf r).length := by omega
      rw [hq, hm, if_pos hpos]
      rfl
  · intro hfollow
    rw [discardInput_rest _ _ hfollow, List.drop_drop]
  · intro hc
    rw [hc, makeEmptyMessage_CmdMissing] at hreg
    cases hreg
    rfl

set_option maxRecDepth 20000 in
/-- The amended C7 at a "missingmsg" header that declares 300 bytes (more than
255), with the 300 bytes and two bytes of the next frame behind it. -/
theorem ReadMessageN_exceeds_type_max_witness :
    (∃ err,
      (ReadMessageN demoExt longMissingFrame 1 1).result
        = Outcome.returns ⟨24, none, none, some err⟩ ∧
      err.isSize = true) ∧
    (∀ k, Event.read k ∈ (ReadMessageN demoExt longMissingFrame 1 1).trace → k = 24) ∧
    Event.decode ∉ (ReadMessageN demoExt longMissingFrame 1 1).trace ∧
    (∀ k ∈ (discardInput (longMissingFrame.drop 24) (headerOf longMissingFrame).length).2,
      k ≤ 10240) ∧
    (discardInput (longMissingFrame.drop 24) (headerOf longMissingFrame).length).2
      = [(headerOf longMissingFrame).length] ∧
    (ReadMessageN demoExt longMissingFrame 1 1).rest
      = longMissingFrame.drop (24 + (headerOf longMissingFrame).length) :=
  have h := ReadMessageN_exceeds_type_max demoExt longMissingFrame 1 1 (emptyMissing demoExt)
    (by decide) (by decide) (by rfl) (by decide) (by decide)
  ⟨h.1, h.2.2.2.1, h.2.2.2.2.1, h.2.2.2.2.2.2.1, h.2.2.2.2.2.2.2.2.1 (by decide),
    h.2.2.2.2.2.2.2.2.2.1 (by decide)⟩

/-- C8 (the code departs from the claim and from its own doc comment): a frame
of network 1 that declares one payload byte, read under network 2. The read
takes 25 bytes from the stream (the header and the drained payload byte), yet
the count ReadMessageN returns is 24. -/
theorem ReadMessageN_count_misses_drained :
    (ReadMessageN demoExt foreignFrame 1 2).result
      = Outcome.returns ⟨24, none, none,
          some (Error.messageError Func.ReadMessage (Desc.otherNetwork 1))⟩ ∧
    (ReadMessageN demoExt foreignFrame 1 2).rest = [1, 2, 3] ∧
    foreignFrame.length - (ReadMessageN demoExt foreignFrame 1 2).rest.length = 25 ∧
    (ReadMessageN demoExt foreignFrame 1 2).trace = [Event.read 24, Event.discard 1] := by
  refine ⟨rfl, rfl, rfl, rfl⟩

/-- C9: whenever WriteMessageN succeeds (with a 32-byte digest from
DoubleSha256), BtcEncode produced the payload without error, the bytes added
to the writer are exactly the header followed by the payload, where the
header is 24 bytes: the network id (4 bytes, big-endian), msg.Command()
right-padded with zero bytes to 12 bytes, len(payload) (4 bytes, big-endian)
and the first 4 bytes of DoubleSha256(payload); the returned count is
24 + len(payload). -/
theorem WriteMessageN_success_layout (X : Ext) (w w1 : Writer) (msg : Message X)
    (pver btcnet n : Nat)
    (hok : WriteMessageN w msg pver btcnet = (n, none, w1))
    (hhash : (X.DoubleSha256 (msg.BtcEncode pver).1).length = 32) :
    (msg.BtcEncode pver).2 = none ∧
    w1.out = w.out ++ wireHeader X btcnet msg.Command (msg.BtcEncode pver).1
      ++ (msg.BtcEncode pver).1 ∧
    (wireHeader X btcnet msg.Command (msg.BtcEncode pver).1).length = 24 ∧
    wireHeader X btcnet msg.Command (msg.BtcEncode pver).1
      = bigEndianPutUint32 btcnet ++
        (msg.Command ++ List.replicate (12 - msg.Command.length) 0) ++
        bigEndianPutUint32 (msg.BtcEncode pver).1.length ++
        (X.DoubleSha256 (msg.BtcEncode pver).1).take 4 ∧
    n = 24 + (msg.BtcEncode pver).1.length := by
  obtain ⟨hc, henc, hmax, _, hw, hhw, hn, hout⟩ := WriteMessageN_success X w msg pver btcnet n w1 hok
  have h4 : 4 ≤ (X.DoubleSha256 (msg.BtcEncode pver).1).length := by omega
  rw [writeElements_eq_wireHeader X btcnet _ _ hc hmax h4] at hhw
  have hl := wireHeader_length X btcnet msg.Command (msg.BtcEncode pver).1 hc h4
  subst hhw
  exact ⟨henc, hout, hl, rfl, by rw [hn, hl]⟩

set_option maxRecDepth 20000 in
/-- C9 at the sample request written to an empty buffer under network 12345. -/
theorem WriteMessageN_success_layout_witness :
    (Message.BtcEncode (Message.missing sampleMissing) 1).2 = none ∧
    (WriteMessageN (Writer.mk [] none) (Message.missing sampleMissing) 1 12345).2.2.out
      = [] ++ wireHeader demoExt 12345 (Message.missing sampleMissing).Command
          (Message.BtcEncode (Message.missing sampleMissing) 1).1
        ++ (Message.BtcEncode (Message.missing sampleMissing) 1).1 ∧
    (WriteMessageN (Writer.mk [] none) (Message.missing sampleMissing) 1 12345).1
      = 24 + (Message.BtcEncode (Message.missing sampleMissing) 1).1.length :=
  have h := WriteMessageN_success_layout demoExt (Writer.mk [] none)
    (WriteMessageN (Writer.mk [] none) (Message.missing sampleMissing) 1 12345).2.2
    (Message.missing sampleMissing) 1 12345
    (WriteMessageN (Writer.mk [] none) (Message.missing sampleMissing) 1 12345).1
    (by rfl) (by rfl)
  ⟨h.1, h.2.1, h.2.2.2.2⟩

/-- C10: WriteMessageN returns an error, leaves the writer as it was and
reports 0 bytes whenever len(msg.Command()) > 12, or the encoded payload is
longer than 32 MiB, or it is longer than msg.MaxPayloadLength(pver); when none
of the three holds, BtcEncode returned no error and the writer has room for
the 24 header bytes and the payload (so that neither Write fails), it returns
no error. -/
theorem WriteMessageN_rejects_or_succeeds (X : Ext) (w : Writer) (msg : Message X)
    (pver btcnet : Nat) :
    (msg.Command.length > 12 ∨
      (msg.BtcEncode pver).1.length > 32 * 1024 * 1024 ∨
      (msg.BtcEncode pver).1.length > msg.MaxPayloadLength pver →
      ∃ err, WriteMessageN w msg pver btcnet = (0, some err, w)) ∧
    (msg.Command.length ≤ 12 →
      (msg.BtcEncode pver).1.length ≤ 32 * 1024 * 1024 →
      (msg.BtcEncode pver).1.length ≤ msg.MaxPayloadLength pver →
      (msg.BtcEncode pver).2 = none →
      (∀ k, w.room = some k → 24 + (msg.BtcEncode pver).1.length ≤ k) →
      (WriteMessageN w msg pver btcnet).2.1 = none) := by
  constructor
  · intro hbad
    exact WriteMessageN_rejects X w msg pver btcnet hbad
  · intro hc hmax hmpl henc hroom
    rw [WriteMessageN_accepts X w msg pver btcnet hc henc hmax hmpl hroom]

set_option maxRecDepth 20000 in
/-- C10 at a request with a 256-byte payload (refused) and at the sample
request (written to a buffer). -/
theorem WriteMessageN_rejects_or_succeeds_witness :
    (∃ err, WriteMessageN (Writer.mk [5] (some 3)) (Message.missing longMissing) 1 12345
      = (0, some err, Writer.mk [5] (some 3))) ∧
    (WriteMessageN (Writer.mk [] none) (Message.missing sampleMissing) 1 12345).2.1 = none :=
  ⟨(WriteMessageN_rejects_or_succeeds demoExt (Writer.mk [5] (some 3))
      (Message.missing longMissing) 1 12345).1 (Or.inr (Or.inr (by decide))),
   (WriteMessageN_rejects_or_succeeds demoExt (Writer.mk [] none)
      (Message.missing sampleMissing) 1 12345).2 (by decide) (by decide) (by decide) rfl
      (by intro k hk; cases hk)⟩

/-- C2: for every MsgMissing `m` with uint32 Height and Index and a signature
that marshals to 96 bytes and equals (under its own Equals) the unmarshalling
of its marshalled form, whose encoded payload is at most 255 bytes, for every
protocol version and every (uint32) network id N, with a 32-byte digest from
DoubleSha256: WriteMessageN into an empty buffer under N succeeds, and
ReadMessageN on the bytes written, under N, returns without error a MsgMissing
`m1` whose Command() is "missingmsg" and with `m.Equals(m1)` true, the raw
payload equal to the output of `m.BtcEncode`, and a count equal to the count
WriteMessageN returned; the whole stream is consumed. -/
theorem WriteMessageN_ReadMessageN_roundtrip {X : Ext} (m : MsgMissing X) (pver N : Nat)
    (hN : N < 2 ^ 32) (hH : m.Height < 2 ^ 32) (hI : m.Index < 2 ^ 32)
    (hlen : (X.MarshalBinarySignature m.Sig).length = 96)
    (hsig : X.SignatureEquals m.Sig
      (X.UnmarshalBinarySignature (X.MarshalBinarySignature m.Sig)) = true)
    (hhash : (X.DoubleSha256 (m.BtcEncode pver).1).length = 32)
    (hsize : (m.BtcEncode pver).1.length ≤ 255) :
    ∃ (n : Nat) (w1 : Writer) (m1 : MsgMissing X),
      WriteMessageN (Writer.mk [] none) (Message.missing m) pver N = (n, none, w1) ∧
      (ReadMessageN X w1.out pver N).result
        = Outcome.returns ⟨n, some (Message.missing m1), some (m.BtcEncode pver).1, none⟩ ∧
      (Message.missing m1).Command = CmdMissing ∧
      m.Equals m1 = true ∧
      (ReadMessageN X w1.out pver N).rest = [] := by
  have h4 : 4 ≤ (X.DoubleSha256 (m.BtcEncode pver).1).length := by omega
  have hmaxp : (m.BtcEncode pver).1.length ≤ MaxMessagePayload := by
    simp only [MaxMessagePayload]; omega
  have hcl : (Message.missing m).Command.length ≤ CommandSize := by
    show CmdMissing.length ≤ CommandSize
    decide
  have hw := WriteMessageN_accepts X (Writer.mk [] none) (Message.missing m) pver N hcl rfl
    hmaxp hsize (by intro k hk; cases hk)
  have hwe := writeElements_eq_wireHeader X N CmdMissing (m.BtcEncode pver).1 hcl hmaxp h4
  have hwl := wireHeader_length X N CmdMissing (m.BtcEncode pver).1 hcl h4
  have hhdr := headerOf_wireHeader_missing X N (m.BtcEncode pver).1 hN (by omega) h4
  refine ⟨_, _, decoded m, hw, ?_, rfl, MsgMissing.Equals_decoded m hsig, ?_⟩
  all_goals
    simp only [Message.BtcEncode, Message.Command, MsgMissing.Command, List.nil_append]
    rw [hwe]
    have hr := ReadMessageN_payload X (wireHeader X N CmdMissing (m.BtcEncode pver).1
        ++ (m.BtcEncode pver).1) pver N (emptyMissing X)
      (by rw [List.length_append, hwl]; omega)
      (by rw [hhdr]; exact hmaxp) (by rw [hhdr]) (by rw [hhdr]; show ValidString CmdMissing = true; decide)
      (by rw [hhdr]; exact makeEmptyMessage_CmdMissing X)
      (by rw [hhdr]; exact hsize)
      (by rw [hhdr, drop_frame _ _ hwl])
    rw [hr, hhdr, drop_frame _ _ hwl]
    simp only [List.take_length, List.drop_length, ne_eq, not_true_eq_false, if_false,
      emptyMissing, Message.BtcDecode,
      MsgMissing.BtcDecode_BtcEncode m _ pver hH hI hlen]

/-- C2 at the sample request under network 12345. -/
theorem WriteMessageN_ReadMessageN_roundtrip_witness :
    ∃ (n : Nat) (w1 : Writer) (m1 : MsgMissing demoExt),
      WriteMessageN (Writer.mk [] none) (Message.missing sampleMissing) 1 12345
        = (n, none, w1) ∧
      (ReadMessageN demoExt w1.out 1 12345).result
        = Outcome.returns
          ⟨n, some (Message.missing m1), some (sampleMissing.BtcEncode 1).1, none⟩ ∧
      (Message.missing m1).Command = CmdMissing ∧
      sampleMissing.Equals m1 = true ∧
      (ReadMessageN demoExt w1.out 1 12345).rest = [] :=
  WriteMessageN_ReadMessageN_roundtrip sampleMissing 1 12345 (by decide) (by decide)
    (by decide) (by simp [demoExt, copyInto, sampleMissing])
    (by simp [demoExt, copyInto, sampleMissing]) (by simp [demoExt])
    (by simp [MsgMissing.BtcEncode, bigEndianPutUint32, demoExt, copyInto, sampleMissing, str])

set_option maxRecDepth 1000000 in
/-- C11 as stated fails: WriteMessageN writes the request collidingMissing
under network 1; flipping one bit of the payload part of the written bytes
(the top bit of the last payload byte) gives a stream that ReadMessageN, with
the same network id and protocol version, accepts: it returns a message and the
altered payload without error, not a checksum error. The first four bytes of
DoubleSha256 are the same for the two payloads. -/
theorem ReadMessageN_bit_flip_counterexample :
    (WriteMessageN (Writer.mk [] none) (Message.missing collidingMissing) 1 1).2.1 = none ∧
    872 < 8 * (collidingMissing.BtcEncode 1).1.length ∧
    flipBit collidingFrame (8 * 24 + 872)
      = collidingFrame.take 24 ++ flipBit (collidingMissing.BtcEncode 1).1 872 ∧
    flipBit (collidingMissing.BtcEncode 1).1 872 ≠ (collidingMissing.BtcEncode 1).1 ∧
    (ReadMessageN shaExt (flipBit collidingFrame (8 * 24 + 872)) 1 1).returnsMessage = true ∧
    (ReadMessageN shaExt (flipBit collidingFrame (8 * 24 + 872)) 1 1).checksumError = false ∧
    (ReadMessageN shaExt (flipBit collidingFrame (8 * 24 + 872)) 1 1).payload
      = some (flipBit (collidingMissing.BtcEncode 1).1 872) := by
  decide

/-- C11 (amended): for every message that WriteMessageN wrote successfully
into an empty buffer (uint32 network id, 32-byte digest) and whose command the
registry resolves to a variant that admits the payload length, as it does for
every MsgMissing, and for every bit position `j` of the payload part of the
written bytes: if the first four bytes of DoubleSha256 of the altered payload
differ from those of the written payload, ReadMessageN (same network id and
protocol version) on the altered bytes returns the checksum error and no
message. -/
theorem ReadMessageN_bit_flip_detected (X : Ext) (msg msg0 : Message X) (pver N n j : Nat)
    (w1 : Writer)
    (hN : N < 2 ^ 32)
    (hok : WriteMessageN (Writer.mk [] none) msg pver N = (n, none, w1))
    (hhash : (X.DoubleSha256 (msg.BtcEncode pver).1).length = 32)
    (hreg : makeEmptyMessage X
      (TrimRightZero (msg.Command ++ List.replicate (CommandSize - msg.Command.length) 0))
        = Except.ok msg0)
    (hfit : (msg.BtcEncode pver).1.length ≤ msg0.MaxPayloadLength pver)
    (hdiff : (X.DoubleSha256 (flipBit (msg.BtcEncode pver).1 j)).take 4
      ≠ (X.DoubleSha256 (msg.BtcEncode pver).1).take 4) :
    flipBit w1.out (8 * 24 + j) = w1.out.take 24 ++ flipBit (msg.BtcEncode pver).1 j ∧
    (ReadMessageN X (flipBit w1.out (8 * 24 + j)) pver N).result
      = Outcome.returns ⟨n, none, none,
          some (Error.messageError Func.ReadMessage
            (Desc.checksumFailed ((X.DoubleSha256 (msg.BtcEncode pver).1).take 4)
              ((X.DoubleSha256 (flipBit (msg.BtcEncode pver).1 j)).take 4)))⟩ ∧
    (ReadMessageN X (flipBit w1.out (8 * 24 + j)) pver N).checksumError = true ∧
    (ReadMessageN X (flipBit w1.out (8 * 24 + j)) pver N).returnsMessage = false := by
  obtain ⟨hc, _, hmax, _, hw, hhw, hn, hout⟩ := WriteMessageN_success X _ msg pver N n w1 hok
  have h4 : 4 ≤ (X.DoubleSha256 (msg.BtcEncode pver).1).length := by omega
  rw [writeElements_eq_wireHeader X N _ _ hc hmax h4] at hhw
  have hl := wireHeader_length X N msg.Command (msg.BtcEncode pver).1 hc h4
  subst hhw
  simp only [List.nil_append] at hout
  have hp32 : (msg.BtcEncode pver).1.length < 2 ^ 32 := by
    simp only [MaxMessagePayload] at hmax
    norm_num
    omega
  have hflip : flipBit w1.out (8 * 24 + j)
      = wireHeader X N msg.Command (msg.BtcEncode pver).1
        ++ flipBit (msg.BtcEncode pver).1 j := by
    rw [hout, ← hl, flipBit_append]
  have htake : w1.out.take 24 = wireHeader X N msg.Command (msg.BtcEncode pver).1 := by
    rw [hout]
    exact List.take_left' hl
  have hhdr := headerOf_wireHeader X N msg.Command (msg.BtcEncode pver).1
    (flipBit (msg.BtcEncode pver).1 j) hN hc hp32 h4
  have hval : ValidString (TrimRightZero
      (msg.Command ++ List.replicate (CommandSize - msg.Command.length) 0)) = true :=
    ValidString_registeredCommands _ (registered_of_ok X _ msg0 hreg)
  have hr := ReadMessageN_payload X (wireHeader X N msg.Command (msg.BtcEncode pver).1
      ++ flipBit (msg.BtcEncode pver).1 j) pver N msg0
    (by rw [List.length_append, hl]; omega)
    (by rw [hhdr]; exact hmax) (by rw [hhdr]) (by rw [hhdr]; exact hval)
    (by rw [hhdr]; exact hreg) (by rw [hhdr]; exact hfit)
    (by rw [hhdr, drop_frame _ _ hl, flipBit_length])
  have hres : (ReadMessageN X (flipBit w1.out (8 * 24 + j)) pver N).result
      = Outcome.returns ⟨n, none, none,
          some (Error.messageError Func.ReadMessage
            (Desc.checksumFailed ((X.DoubleSha256 (msg.BtcEncode pver).1).take 4)
              ((X.DoubleSha256 (flipBit (msg.BtcEncode pver).1 j)).take 4)))⟩ := by
    rw [hflip, hr, hhdr, drop_frame _ _ hl]
    have hfl : (flipBit (msg.BtcEncode pver).1 j).take (msg.BtcEncode pver).1.length
        = flipBit (msg.BtcEncode pver).1 j := by
      apply List.take_of_length_le
      rw [flipBit_length]
    simp only [hfl, ne_eq, hdiff, not_false_eq_true, if_true, flipBit_length]
    rw [hn, hl]
  refine ⟨by rw [htake, hflip], hres, ?_, ?_⟩
  · simp only [ReadRun.checksumError, hres, Option.isNone_none, Error.isChecksum, Bool.and_self]
  · simp only [ReadRun.returnsMessage, hres, Option.isSome_none, Bool.false_and]

set_option maxRecDepth 1000000 in
/-- The amended C11 at collidingMissing and the bit next to the colliding one. -/
theorem ReadMessageN_bit_flip_detected_witness :
    (ReadMessageN shaExt (flipBit collidingFrame (8 * 24 + 871)) 1 1).checksumError = true ∧
    (ReadMessageN shaExt (flipBit collidingFrame (8 * 24 + 871)) 1 1).returnsMessage = false :=
  (ReadMessageN_bit_flip_detected shaExt (Message.missing collidingMissing)
    (emptyMissing shaExt) 1 1
    (WriteMessageN (Writer.mk [] none) (Message.missing collidingMissing) 1 1).1 871
    (WriteMessageN (Writer.mk [] none) (Message.missing collidingMissing) 1 1).2.2
    (by decide) (by decide) (by decide) (by rfl) (by decide) (by decide)).2.2

/-- C12: when the header passes the size gates (length at most 32 MiB and at
most the resolved variant's maximum), the network gate and the command gates,
and at least `length` bytes follow it, ReadMessageN returns a message only if
the first four bytes of DoubleSha256 of the payload equal the header checksum;
on a mismatch it returns the checksum error and no message, has consumed
exactly 24 + length bytes, made the header read and the payload read, and did
not call BtcDecode. -/
theorem ReadMessageN_checksum_gate (X : Ext) (r : Bytes) (pver btcnet : Nat)
    (msg : Message X)
    (h : 24 ≤ r.length)
    (hsmall : (headerOf r).length ≤ MaxMessagePayload)
    (hnet : (headerOf r).magic = btcnet)
    (hreg : makeEmptyMessage X (headerOf r).command = Except.ok msg)
    (hfit : (headerOf r).length ≤ msg.MaxPayloadLength pver)
    (hfollow : (headerOf r).length ≤ (r.drop 24).length) :
    (∀ res m1, (ReadMessageN X r pver btcnet).result = Outcome.returns res →
      res.msg = some m1 →
      (X.DoubleSha256 ((r.drop 24).take (headerOf r).length)).take 4
        = (headerOf r).checksum) ∧
    ((X.DoubleSha256 ((r.drop 24).take (headerOf r).length)).take 4 ≠ (headerOf r).checksum →
      (ReadMessageN X r pver btcnet).result
        = Outcome.returns ⟨24 + (headerOf r).length, none, none,
            some (Error.messageError Func.ReadMessage
              (Desc.checksumFailed (headerOf r).checksum
                ((X.DoubleSha256 ((r.drop 24).take (headerOf r).length)).take 4)))⟩ ∧
      (ReadMessageN X r pver btcnet).rest = r.drop (24 + (headerOf r).length) ∧
      r.length - (ReadMessageN X r pver btcnet).rest.length = 24 + (headerOf r).length ∧
      (ReadMessageN X r pver btcnet).trace
        = [Event.read 24, Event.read (headerOf r).length] ∧
      Event.decode ∉ (ReadMessageN X r pver btcnet).trace) := by
  have hval : ValidString (headerOf r).command = true :=
    ValidString_registeredCommands _ (registered_of_ok X _ msg hreg)
  have hl : ((r.drop 24).take (headerOf r).length).length = (headerOf r).length := by
    simp only [List.length_take]; omega
  have hc : r.length - ((r.drop 24).drop (headerOf r).length).length
      = 24 + (headerOf r).length := by
    simp only [List.length_drop] at hfollow ⊢
    omega
  rw [ReadMessageN_payload X r pver btcnet msg h hsmall hnet hval hreg hfit hfollow]
  constructor
  · intro res m1 hret hmsg
    by_contra hne
    simp only [ne_eq, hne, not_false_eq_true, if_true, Outcome.returns.injEq] at hret
    rw [← hret] at hmsg
    cases hmsg
  · intro hne
    rw [if_pos hne]
    dsimp only
    rw [hl]
    refine ⟨rfl, ?_, hc, rfl, ?_⟩
    · rw [List.drop_drop]
    · simp

set_option maxRecDepth 20000 in
/-- C12 at a "missingmsg" frame whose checksum field is not that of its
payload. -/
theorem ReadMessageN_checksum_gate_witness :
    (ReadMessageN demoExt badChecksumFrame 1 1).rest
      = badChecksumFrame.drop (24 + (headerOf badChecksumFrame).length) ∧
    (ReadMessageN demoExt badChecksumFrame 1 1).trace
      = [Event.read 24, Event.read (headerOf badChecksumFrame).length] ∧
    Event.decode ∉ (ReadMessageN demoExt badChecksumFrame 1 1).trace :=
  have h := (ReadMessageN_checksum_gate demoExt badChecksumFrame 1 1 (emptyMissing demoExt)
    (by decide) (by decide) (by decide) (by rfl) (by decide) (by decide)).2 (by decide)
  ⟨h.2.1, h.2.2.2.1, h.2.2.2.2⟩

/-- C13: for every MsgMissing `m`, BtcEncode returns no error and writes
GetBinaryForSignature(m) followed by the marshalled signature, that is Height
as 4 big-endian bytes, Index as 4 big-endian bytes, the Type byte, the bytes
of ReqNodeID, then the signature; with a 96-byte marshalled signature the
payload has 4 + 4 + 1 + len(ReqNodeID) + 96 bytes. -/
theorem MsgMissing.BtcEncode_layout {X : Ext} (m : MsgMissing X) (pver : Nat) :
    (m.BtcEncode pver).2 = none ∧
    (m.BtcEncode pver).1 = m.GetBinaryForSignature.1 ++ X.MarshalBinarySignature m.Sig ∧
    (m.BtcEncode pver).1 =
      [m.Height / 2 ^ 24 % 256, m.Height / 2 ^ 16 % 256, m.Height / 2 ^ 8 % 256,
        m.Height % 256] ++
      [m.Index / 2 ^ 24 % 256, m.Index / 2 ^ 16 % 256, m.Index / 2 ^ 8 % 256,
        m.Index % 256] ++
      [m.Typ] ++ m.ReqNodeID ++ X.MarshalBinarySignature m.Sig ∧
    ((X.MarshalBinarySignature m.Sig).length = 96 →
      (m.BtcEncode pver).1.length = 4 + 4 + 1 + m.ReqNodeID.length + 96) := by
  refine ⟨rfl, ?_, ?_, ?_⟩
  · simp [MsgMissing.BtcEncode, MsgMissing.GetBinaryForSignature]
  · simp [MsgMissing.BtcEncode, bigEndianPutUint32]
  · intro h
    simp only [MsgMissing.BtcEncode, List.length_append, bigEndianPutUint32_length,
      List.length_cons, List.length_nil, h]

/-- C13 at the sample request: 110 bytes. -/
theorem MsgMissing.BtcEncode_layout_witness :
    (sampleMissing.BtcEncode 1).1.length = 4 + 4 + 1 + sampleMissing.ReqNodeID.length + 96 :=
  (MsgMissing.BtcEncode_layout sampleMissing 1).2.2.2
    (by simp [demoExt, copyInto, sampleMissing])

/-- C14: with the hash function Sha calls and the hash function of the header
checksum as the spec models them (one double hash; see Sha256 and
DoubleSha256), for every MsgMissing `m`, Sha() returns no error and the
32-byte double hash, the same DoubleSha256 as the header checksum, of exactly
the bytes BtcEncode writes for `m`, signature included, whatever the protocol
version; consequently two messages with identical encoded bytes have
identical identity hashes. -/
theorem MsgMissing.Sha_double_hash {X : Ext} (m m1 : MsgMissing X)
    (hS : X.Sha256 = Sha256) (hD : X.DoubleSha256 = DoubleSha256) :
    m.Sha.2 = none ∧
    (∀ pver, m.Sha.1 = X.DoubleSha256 (m.BtcEncode pver).1) ∧
    (∀ pver, (m.BtcEncode pver).1
      = m.GetBinaryForSignature.1 ++ X.MarshalBinarySignature m.Sig) ∧
    m.Sha.1.length = 32 ∧
    ((m.BtcEncode ProtocolVersion).1 = (m1.BtcEncode ProtocolVersion).1 → m.Sha = m1.Sha) := by
  have hsha : m.Sha.1 = X.DoubleSha256 (m.BtcEncode ProtocolVersion).1 := by
    simp only [MsgMissing.Sha, ShaHashSetBytes, hS, hD, Sha256, DoubleSha256_length, if_true]
  refine ⟨rfl, fun _ => hsha, ?_, ?_, ?_⟩
  · intro pver
    simp [MsgMissing.BtcEncode, MsgMissing.GetBinaryForSignature]
  · rw [hsha, hD]
    exact DoubleSha256_length _
  · intro h
    simp only [MsgMissing.Sha, h]

/-- C14 at the request collidingMissing, with the hash functions of shaExt. -/
theorem MsgMissing.Sha_double_hash_witness :
    collidingMissing.Sha.2 = none ∧
    collidingMissing.Sha.1 = shaExt.DoubleSha256 (collidingMissing.BtcEncode 1).1 ∧
    collidingMissing.Sha.1.length = 32 :=
  have h := MsgMissing.Sha_double_hash collidingMissing collidingMissing rfl rfl
  ⟨h.1, h.2.1 1, h.2.2.2.1⟩

/-- C15: for every MsgMissing `m` and private key, Sign returns no error and
leaves in `m.Sig` the signature the key gives the bytes big-endian Height,
big-endian Index, the Type byte and the bytes of ReqNodeID, in that order;
Height, Index, Type and ReqNodeID are unchanged, and the result does not depend
on the signature stored in `m` before. -/
theorem MsgMissing.Sign_sets_signature {X : Ext} (m : MsgMissing X) (priv : X.PrivateKey) :
    (m.Sign priv).2 = none ∧
    (m.Sign priv).1.Sig = X.Sign priv
      (bigEndianPutUint32 m.Height ++ bigEndianPutUint32 m.Index ++ [m.Typ] ++ m.ReqNodeID) ∧
    (m.Sign priv).1.Height = m.Height ∧ (m.Sign priv).1.Index = m.Index ∧
    (m.Sign priv).1.Typ = m.Typ ∧ (m.Sign priv).1.ReqNodeID = m.ReqNodeID ∧
    (∀ s : X.Signature, ({ m with Sig := s } : MsgMissing X).Sign priv = m.Sign priv) := by
  refine ⟨rfl, ?_, rfl, rfl, rfl, rfl, fun s => rfl⟩
  simp [MsgMissing.Sign, MsgMissing.GetBinaryForSignature]

/-- C16: for all MsgMissing `a` and `b`, `a.Equals(b)` is true exactly when
Height, Index, Type and ReqNodeID are pairwise equal and `a.Sig.Equals(b.Sig)`
holds; so two messages with identical field values and signatures that are
equal under the signature's Equals compare equal, and a `b` whose Height,
Index, Type or ReqNodeID differs from that of `a` is unequal to `a`, whatever
its other fields. -/
theorem MsgMissing.Equals_iff {X : Ext} (a b : MsgMissing X) :
    (a.Equals b = true ↔
      a.Height = b.Height ∧ a.Index = b.Index ∧ a.Typ = b.Typ ∧ a.ReqNodeID = b.ReqNodeID ∧
        X.SignatureEquals a.Sig b.Sig = true) ∧
    (a.Height = b.Height → a.Index = b.Index → a.Typ = b.Typ → a.ReqNodeID = b.ReqNodeID →
      X.SignatureEquals a.Sig b.Sig = true → a.Equals b = true) ∧
    (∀ v, v ≠ a.Height → a.Equals { b with Height := v } = false) ∧
    (∀ v, v ≠ a.Index → a.Equals { b with Index := v } = false) ∧
    (∀ v, v ≠ a.Typ → a.Equals { b with Typ := v } = false) ∧
    (∀ v, v ≠ a.ReqNodeID → a.Equals { b with ReqNodeID := v } = false) := by
  refine ⟨?_, ?_, ?_, ?_, ?_, ?_⟩
  · simp [MsgMissing.Equals, and_assoc]
  · intro h1 h2 h3 h4 h5
    simp [MsgMissing.Equals, h1, h2, h3, h4, h5]
  · intro v hv
    simp [MsgMissing.Equals, Ne.symm hv]
  · intro v hv
    simp [MsgMissing.Equals, Ne.symm hv]
  · intro v hv
    simp [MsgMissing.Equals, Ne.symm hv]
  · intro v hv
    simp [MsgMissing.Equals, Ne.symm hv]

/-- C16 at the sample request: equal to itself, unequal once the Height or
only the ReqNodeID is changed. -/
theorem MsgMissing.Equals_iff_witness :
    sampleMissing.Equals sampleMissing = true ∧
    sampleMissing.Equals { sampleMissing with Height := 8 } = false ∧
    sampleMissing.Equals { sampleMissing with ReqNodeID := str "peerB" } = false :=
  ⟨(MsgMissing.Equals_iff sampleMissing sampleMissing).2.1 rfl rfl rfl rfl
      (by simp [demoExt]),
   (MsgMissing.Equals_iff sampleMissing sampleMissing).2.2.1 8 (by decide),
   (MsgMissing.Equals_iff sampleMissing sampleMissing).2.2.2.2.2 (str "peerB") (by decide)⟩

/-- C17: for every MsgMissing `m`, IsEomAck is true exactly when
END_MINUTE_1 <= m.Type <= END_MINUTE_10; with END_MINUTE_1 <= END_MINUTE_10 it
is true for Type = END_MINUTE_1 and for Type = END_MINUTE_10; it is false for
Type = END_MINUTE_1 - 1 (when END_MINUTE_1 is not 0) and for
Type = END_MINUTE_10 + 1. -/
theorem MsgMissing.IsEomAck_iff {X : Ext} (m : MsgMissing X) :
    (m.IsEomAck = true ↔ X.END_MINUTE_1 ≤ m.Typ ∧ m.Typ ≤ X.END_MINUTE_10) ∧
    (X.END_MINUTE_1 ≤ X.END_MINUTE_10 →
      ({ m with Typ := X.END_MINUTE_1 } : MsgMissing X).IsEomAck = true ∧
      ({ m with Typ := X.END_MINUTE_10 } : MsgMissing X).IsEomAck = true) ∧
    (0 < X.END_MINUTE_1 →
      ({ m with Typ := X.END_MINUTE_1 - 1 } : MsgMissing X).IsEomAck = false) ∧
    ({ m with Typ := X.END_MINUTE_10 + 1 } : MsgMissing X).IsEomAck = false := by
  refine ⟨?_, ?_, ?_, ?_⟩
  · simp [MsgMissing.IsEomAck]
  · intro h
    simp [MsgMissing.IsEomAck, h]
  · intro h
    simp only [MsgMissing.IsEomAck]
    rw [if_neg (by omega)]
  · simp only [MsgMissing.IsEomAck]
    rw [if_neg (by omega)]

/-- C17 with END_MINUTE_1 = 1 and END_MINUTE_10 = 10: true at 1 and 10, false
at 0 and 11. -/
theorem MsgMissing.IsEomAck_iff_witness :
    (({ sampleMissing with Typ := 1 } : MsgMissing demoExt).IsEomAck = true ∧
      ({ sampleMissing with Typ := 10 } : MsgMissing demoExt).IsEomAck = true) ∧
    ({ sampleMissing with Typ := 0 } : MsgMissing demoExt).IsEomAck = false ∧
    ({ sampleMissing with Typ := 11 } : MsgMissing demoExt).IsEomAck = false :=
  ⟨(MsgMissing.IsEomAck_iff sampleMissing).2.1 (by decide),
   (MsgMissing.IsEomAck_iff sampleMissing).2.2.1 (by decide),
   (MsgMissing.IsEomAck_iff sampleMissing).2.2.2⟩

/-- C18: for every `n` and every stream of at least `n` bytes, discardInput
consumes exactly `n` bytes; the buffers it hands to io.ReadFull are `n / 10240`
buffers of 10240 bytes followed, when `n % 10240` is not zero, by one of
`n % 10240` bytes; their sizes add up to `n`, none is larger than 10240 (or
empty), and for `n = 0` there is no read. -/
theorem discardInput_chunks (r : Bytes) (n : Nat) (h : n ≤ r.length) :
    (discardInput r n).1 = r.drop n ∧
    r.length - (discardInput r n).1.length = n ∧
    (discardInput r n).2 =
      List.replicate (n / 10240) 10240 ++ (if n % 10240 > 0 then [n % 10240] else []) ∧
    (discardInput r n).2.sum = n ∧
    (∀ k ∈ (discardInput r n).2, 0 < k ∧ k ≤ 10240) ∧
    (n = 0 → (discardInput r n).2 = []) := by
  have hdm : n / 10240 * 10240 + n % 10240 = n := Nat.div_add_mod' n 10240
  refine ⟨discardInput_rest r n h, ?_, discardInput_reads r n, ?_, ?_, ?_⟩
  · rw [discardInput_rest r n h, List.length_drop]
    omega
  · rw [discardInput_reads]
    by_cases hrem : n % 10240 > 0
    · simp only [hrem, if_true, List.sum_append, List.sum_replicate, smul_eq_mul,
        List.sum_cons, List.sum_nil]
      omega
    · simp only [hrem, if_false, List.sum_append, List.sum_replicate, smul_eq_mul,
        List.sum_nil]
      omega
  · intro k hk
    refine ⟨?_, discardInput_reads_le r n k hk⟩
    rw [discardInput_reads] at hk
    rcases List.mem_append.mp hk with h1 | h1
    · rw [(List.mem_replicate.mp h1).2]
      decide
    · split_ifs at h1 with hrem
      · rw [List.mem_singleton.mp h1]
        exact hrem
      · simp at h1
  · intro h0
    subst h0
    rw [discardInput_zero]

/-- C18 at n = 20481 on a stream of 20500 bytes: two reads of 10240 bytes and
one of 1 byte. -/
theorem discardInput_chunks_witness :
    (discardInput (List.replicate 20500 0) 20481).1 = (List.replicate 20500 0).drop 20481 ∧
    (discardInput (List.replicate 20500 0) 20481).2 =
      List.replicate (20481 / 10240) 10240 ++
        (if 20481 % 10240 > 0 then [20481 % 10240] else []) ∧
    (discardInput (List.replicate 20500 0) 20481).2.sum = 20481 :=
  have h := discardInput_chunks (List.replicate 20500 0) 20481
    (by rw [List.length_replicate]; omega)
  ⟨h.1, h.2.2.1, h.2.2.2.1⟩

/-- C19: GetBinaryForSignature is injective on the signed fields: two
MsgMissing with uint32 Height and Index and the same canonical bytes have the
same Height, Index, Type and ReqNodeID. -/
theorem MsgMissing.GetBinaryForSignature_injective {X : Ext} (a b : MsgMissing X)
    (haH : a.Height < 2 ^ 32) (haI : a.Index < 2 ^ 32)
    (hbH : b.Height < 2 ^ 32) (hbI : b.Index < 2 ^ 32)
    (h : a.GetBinaryForSignature.1 = b.GetBinaryForSignature.1) :
    a.Height = b.Height ∧ a.Index = b.Index ∧ a.Typ = b.Typ ∧ a.ReqNodeID = b.ReqNodeID := by
  simp only [MsgMissing.GetBinaryForSignature, bigEndianPutUint32, List.nil_append,
    List.cons_append, List.cons.injEq] at h
  obtain ⟨h1, h2, h3, h4, h5, h6, h7, h8, h9, h10⟩ := h
  norm_num at h1 h2 h3 h5 h6 h7 haH haI hbH hbI
  refine ⟨by omega, by omega, h9, ?_⟩
  simpa using h10

/-- C19 at the sample request and the same request under another signature. -/
theorem MsgMissing.GetBinaryForSignature_injective_witness :
    sampleMissing.Height = ({ sampleMissing with Sig := [] } : MsgMissing demoExt).Height ∧
    sampleMissing.Index = ({ sampleMissing with Sig := [] } : MsgMissing demoExt).Index ∧
    sampleMissing.Typ = ({ sampleMissing with Sig := [] } : MsgMissing demoExt).Typ ∧
    sampleMissing.ReqNodeID
      = ({ sampleMissing with Sig := [] } : MsgMissing demoExt).ReqNodeID :=
  MsgMissing.GetBinaryForSignature_injective sampleMissing { sampleMissing with Sig := [] }
    (by decide) (by decide) (by decide) (by decide) rfl

/-- C20: for every MsgMissing with a 96-byte marshalled signature, every
protocol version and a writer that has room for the bytes, WriteMessageN
succeeds exactly when 105 + len(ReqNodeID) <= 255, that is when ReqNodeID has
at most 150 bytes; for every longer ReqNodeID it returns a size error, reports
0 bytes and leaves the writer as it was. -/
theorem WriteMessageN_missing_iff {X : Ext} (m : MsgMissing X) (w : Writer)
    (pver btcnet : Nat)
    (hsig : (X.MarshalBinarySignature m.Sig).length = 96)
    (hroom : ∀ k, w.room = some k → 24 + (m.BtcEncode pver).1.length ≤ k) :
    ((WriteMessageN w (Message.missing m) pver btcnet).2.1 = none ↔
      105 + m.ReqNodeID.length ≤ 255) ∧
    (105 + m.ReqNodeID.length ≤ 255 ↔ m.ReqNodeID.length ≤ 150) ∧
    (150 < m.ReqNodeID.length →
      ∃ err, WriteMessageN w (Message.missing m) pver btcnet = (0, some err, w) ∧
        err.isSize = true) := by
  have hlen := MsgMissing.BtcEncode_length m pver hsig
  refine ⟨?_, by omega, ?_⟩
  · constructor
    · intro hok
      by_contra hbig
      obtain ⟨err, h1, _⟩ := WriteMessageN_missing_rejects m w pver btcnet (by omega)
      rw [h1] at hok
      cases hok
    · intro hfit
      rw [WriteMessageN_accepts X w (Message.missing m) pver btcnet (by
          show CmdMissing.length ≤ CommandSize
          decide) rfl (by
          show (m.BtcEncode pver).1.length ≤ MaxMessagePayload
          simp only [MaxMessagePayload]
          omega) (by
          show (m.BtcEncode pver).1.length ≤ 255
          omega) hroom]
  · intro hbig
    exact WriteMessageN_missing_rejects m w pver btcnet (by omega)

set_option maxRecDepth 20000 in
/-- C20 at the sample request (5-byte ReqNodeID, written) and at a request with
a 151-byte ReqNodeID (refused). -/
theorem WriteMessageN_missing_iff_witness :
    (WriteMessageN (Writer.mk [] none) (Message.missing sampleMissing) 1 1).2.1 = none ∧
    ∃ err, WriteMessageN (Writer.mk [] none) (Message.missing longMissing) 1 1
        = (0, some err, Writer.mk [] none) ∧ err.isSize = true :=
  ⟨(WriteMessageN_missing_iff sampleMissing (Writer.mk [] none) 1 1
      (by simp [demoExt, copyInto, sampleMissing]) (by intro k hk; cases hk)).1.mpr
      (by decide),
   (WriteMessageN_missing_iff longMissing (Writer.mk [] none) 1 1
      (by simp [demoExt, copyInto, longMissing]) (by intro k hk; cases hk)).2.2
      (by decide)⟩

end Wire
